import Mathlib

/-!
Verification of the Event & Registration Lifecycle Engine of the Felicity
event-management repository.

The repository's sources available here contain the HTTP glue (the Express
app with its error handler, the email service, the frontend API client that
declares the engine's endpoints) while the engine itself — capacity ledger,
event/registration state machines, payment gate, ticket codec, verification
service — is only declared through its callers.  Following the spec, the
engine is modelled here from the spec's own words (each such definition says
so in its doc comment); the error handler and the email service are embedded
from the source files.

Concurrency note: the spec mandates that every engine operation is atomic
per affected record (per-record locking / serializable update), so a
concurrent execution is observationally an arbitrary interleaving, i.e. an
arbitrary finite sequence, of the atomic operations.  Reachability below
quantifies over all such sequences.
-/

/-- Modelled from the spec: the event lifecycle states
`draft → published → closed → completed`, with `cancelled` reachable from
`draft` or `published`. -/
inductive EventState where
  | draft
  | published
  | closed
  | completed
  | cancelled
deriving DecidableEq

/-- Modelled from the spec: the registration lifecycle states
`pending`, `confirmed`, `checked-in`, `cancelled`. -/
inductive RegState where
  | pending
  | confirmed
  | checkedIn
  | cancelled
deriving DecidableEq

/-- Modelled from the spec: the payment-proof review states
`pending → approved | rejected`. -/
inductive ProofState where
  | pending
  | approved
  | rejected
deriving DecidableEq

/-- Modelled from the spec: the error taxonomy of section 7 (`NotFound`
covers a referenced record that does not exist, a case the spec leaves to
the persistence collaborator). -/
inductive Err where
  | InvalidStateTransition
  | CapacityExceeded
  | DuplicateRegistration
  | PaymentNotApproved
  | TicketAlreadyUsed
  | TicketInvalid
  | MalformedToken
  | Unauthorized
  | WindowClosed
  | NotFound
deriving DecidableEq

/-- Modelled from the spec: a ticket has an identifier, a used/unused flag
and a nullable check-in timestamp. -/
structure Ticket where
  tid : Nat
  used : Bool
  checkInAt : Option Nat
deriving DecidableEq

/-- Modelled from the spec: a payment proof has a review state and a
nullable rejection reason. -/
structure PaymentProof where
  state : ProofState
  reason : Option String
deriving DecidableEq

/-- Modelled from the spec: a registration references its event and
participant, carries its lifecycle state, a nullable payment proof (the most
recent one) and a nullable ticket (assigned only on confirmation). -/
structure Reg where
  id : Nat
  eventId : Nat
  participantId : Nat
  state : RegState
  payProof : Option PaymentProof
  ticket : Option Ticket
deriving DecidableEq

/-- Modelled from the spec: an event has a capacity (0 = unlimited), a
payment-required flag, a registration window, a lifecycle state and the
capacity ledger's registration count. -/
structure Event where
  id : Nat
  capacity : Nat
  requiresPayment : Bool
  openAt : Nat
  closeAt : Nat
  state : EventState
  count : Nat
deriving DecidableEq

/-- Modelled from the spec: the shared persistent state the engine's
operations act on. -/
structure Sys where
  events : List Event
  regs : List Reg
  nextEventId : Nat
  nextRegId : Nat
  nextTicketId : Nat
deriving DecidableEq

/-- The empty initial state. -/
def sys0 : Sys := ⟨[], [], 0, 0, 0⟩

/-- Find a record by a natural-number key. -/
def findBy (key : α → Nat) (k : Nat) (l : List α) : Option α :=
  l.find? (fun x => key x == k)

/-- Update the records holding a given key, leaving the others alone. -/
def updBy (key : α → Nat) (k : Nat) (f : α → α) (l : List α) : List α :=
  l.map (fun x => if key x == k then f x else x)

/-- Look up an event by id. -/
def findEvent (eid : Nat) (s : Sys) : Option Event := findBy Event.id eid s.events

/-- Look up a registration by id. -/
def findReg (rid : Nat) (s : Sys) : Option Reg := findBy Reg.id rid s.regs

/-- Whether a registration currently holds the ticket with identifier
`tid`. -/
def holdsTicket (tid : Nat) (r : Reg) : Bool :=
  match r.ticket with
  | some t => t.tid == tid
  | none => false

/-- Look up the registration holding a ticket, as the verification service
does from a scanned ticket identifier. -/
def findByTicket (tid : Nat) (s : Sys) : Option Reg :=
  s.regs.find? (holdsTicket tid)

/-- Modelled from the spec: a registration is active while it is not
cancelled (it occupies a capacity slot). -/
def regActive (r : Reg) : Bool := decide (r.state ≠ RegState.cancelled)

/-- Modelled from the spec: a registration is open (non-terminal) in
`pending` or `confirmed`; cascading event cancellation cancels exactly
these. -/
def regOpen (r : Reg) : Bool :=
  decide (r.state = RegState.pending ∨ r.state = RegState.confirmed)

/-- Modelled from the spec: whether the registration's most recent payment
proof is approved. -/
def proofApproved (r : Reg) : Bool :=
  match r.payProof with
  | some p => p.state == ProofState.approved
  | none => false

/-- Modelled from the spec, capacity ledger: `reserveSlot` checks the
current count against capacity; capacity 0 (unlimited) always succeeds;
otherwise it succeeds exactly when `count < capacity`, incrementing the
count; on failure it reports `CapacityExceeded`. -/
def reserveSlot (e : Event) : Except Err Event :=
  if e.capacity = 0 then .ok { e with count := e.count + 1 }
  else if e.count < e.capacity then .ok { e with count := e.count + 1 }
  else .error .CapacityExceeded

/-- Modelled from the spec, capacity ledger: `releaseSlot` decrements the
count on cancellation and never takes it below zero. -/
def releaseSlot (e : Event) : Event := { e with count := e.count - 1 }

/-- Modelled from the spec: `createEvent` creates a draft event with a fresh
identifier and an empty ledger count. -/
def createEvent (capacity : Nat) (requiresPayment : Bool) (oa ca : Nat)
    (s : Sys) : Except Err Sys :=
  .ok { s with
    events := s.events ++
      [⟨s.nextEventId, capacity, requiresPayment, oa, ca, .draft, 0⟩],
    nextEventId := s.nextEventId + 1 }

/-- Modelled from the spec: `publish` is legal only from `draft`; any other
state fails with `InvalidStateTransition`. -/
def publishEvent (eid : Nat) (s : Sys) : Except Err Sys :=
  match findEvent eid s with
  | none => .error .NotFound
  | some e =>
    if e.state = .draft then
      .ok { s with
        events := updBy Event.id eid (fun e0 => { e0 with state := .published }) s.events }
    else .error .InvalidStateTransition

/-- Modelled from the spec: `close` is legal only from `published`; it stops
new registrations but permits existing registrants through check-in. -/
def closeEvent (eid : Nat) (s : Sys) : Except Err Sys :=
  match findEvent eid s with
  | none => .error .NotFound
  | some e =>
    if e.state = .published then
      .ok { s with
        events := updBy Event.id eid (fun e0 => { e0 with state := .closed }) s.events }
    else .error .InvalidStateTransition

/-- Modelled from the spec: `complete` is legal only from `closed`; it
freezes all registration/ticket mutation. -/
def completeEvent (eid : Nat) (s : Sys) : Except Err Sys :=
  match findEvent eid s with
  | none => .error .NotFound
  | some e =>
    if e.state = .closed then
      .ok { s with
        events := updBy Event.id eid (fun e0 => { e0 with state := .completed }) s.events }
    else .error .InvalidStateTransition

/-- Modelled from the spec: `cancel` is legal from `draft` or `published`;
it cancels all open (pending/confirmed) registrations of the event in
cascade, resets the ledger count to 0 and leaves the tickets of those
registrations invalid. -/
def cancelEvent (eid : Nat) (s : Sys) : Except Err Sys :=
  match findEvent eid s with
  | none => .error .NotFound
  | some e =>
    if e.state = .draft ∨ e.state = .published then
      .ok { s with
        events := updBy Event.id eid
          (fun e0 => { e0 with state := .cancelled, count := 0 }) s.events,
        regs := s.regs.map (fun r =>
          if r.eventId == eid && regOpen r then { r with state := .cancelled } else r) }
    else .error .InvalidStateTransition

/-- Modelled from the spec: registration creation — the event must be
published, the registration window is re-checked at execution time, at most
one active registration per (event, participant) pair, and the capacity
ledger reserves a slot atomically in the same operation that creates the
`pending` registration record. -/
def registerForEvent (eid pid now : Nat) (s : Sys) : Except Err Sys :=
  match findEvent eid s with
  | none => .error .NotFound
  | some e =>
    if e.state ≠ .published then .error .InvalidStateTransition
    else if now < e.openAt ∨ e.closeAt < now then .error .WindowClosed
    else if s.regs.any (fun r =>
        r.eventId == eid && r.participantId == pid && regActive r) then
      .error .DuplicateRegistration
    else
      match reserveSlot e with
      | .error er => .error er
      | .ok e2 =>
        .ok { s with
          events := updBy Event.id eid (fun _ => e2) s.events,
          regs := s.regs ++ [⟨s.nextRegId, eid, pid, .pending, none, none⟩],
          nextRegId := s.nextRegId + 1 }

/-- Whether a new payment proof may be submitted: none yet, or the previous
one was rejected (resubmission replaces it). -/
def canSubmitProof (pp : Option PaymentProof) : Bool :=
  match pp with
  | none => true
  | some p => p.state == ProofState.rejected

/-- Modelled from the spec: `submitProof` creates a pending proof for a
pending registration of a payment-required event; resubmission after a
rejection replaces the rejected proof. -/
def submitProof (rid : Nat) (s : Sys) : Except Err Sys :=
  match findReg rid s with
  | none => .error .NotFound
  | some r =>
    match findEvent r.eventId s with
    | none => .error .NotFound
    | some e =>
      if e.requiresPayment = false then .error .InvalidStateTransition
      else if r.state ≠ .pending then .error .InvalidStateTransition
      else if canSubmitProof r.payProof then
        .ok { s with
          regs := updBy Reg.id rid
            (fun r0 => { r0 with payProof := some ⟨.pending, none⟩ }) s.regs }
      else .error .InvalidStateTransition

/-- Modelled from the spec: `confirm` is legal from `pending`, barred once
the owning event is `completed` or `cancelled`, requires the payment gate
approved (or no payment required), and issues a fresh ticket via the ticket
codec as part of the same operation. -/
def confirmRegistration (rid : Nat) (s : Sys) : Except Err Sys :=
  match findReg rid s with
  | none => .error .NotFound
  | some r =>
    match findEvent r.eventId s with
    | none => .error .NotFound
    | some e =>
      if e.state = .completed ∨ e.state = .cancelled then .error .InvalidStateTransition
      else if r.state ≠ .pending then .error .InvalidStateTransition
      else if e.requiresPayment = true ∧ proofApproved r = false then
        .error .PaymentNotApproved
      else
        .ok { s with
          regs := updBy Reg.id rid
            (fun r0 => { r0 with
              state := .confirmed,
              ticket := some ⟨s.nextTicketId, false, none⟩ }) s.regs,
          nextTicketId := s.nextTicketId + 1 }

/-- Modelled from the spec: `approve` is an organizer action legal only
while the proof is `pending`; it marks the proof approved and triggers the
registration state machine's `confirm` transition. -/
def approveProof (rid : Nat) (s : Sys) : Except Err Sys :=
  match findReg rid s with
  | none => .error .NotFound
  | some r =>
    match r.payProof with
    | none => .error .InvalidStateTransition
    | some p =>
      if p.state = .pending then
        confirmRegistration rid
          { s with
            regs := updBy Reg.id rid
              (fun r0 => { r0 with payProof := some ⟨.approved, none⟩ }) s.regs }
      else .error .InvalidStateTransition

/-- Modelled from the spec: `reject` is legal only while the proof is
`pending`; it records the rejection reason and keeps the registration in its
gated state. -/
def rejectProof (rid : Nat) (reason : String) (s : Sys) : Except Err Sys :=
  match findReg rid s with
  | none => .error .NotFound
  | some r =>
    match r.payProof with
    | none => .error .InvalidStateTransition
    | some p =>
      if p.state = .pending then
        .ok { s with
          regs := updBy Reg.id rid
            (fun r0 => { r0 with payProof := some ⟨.rejected, some reason⟩ }) s.regs }
      else .error .InvalidStateTransition

/-- Mark the ticket of a checked-in registration used, stamping the check-in
time. -/
def markUsed (now : Nat) : Option Ticket → Option Ticket
  | some t => some { t with used := true, checkInAt := some now }
  | none => none

/-- Modelled from the spec, verification service: `verify` looks up the
registration holding the scanned ticket; check-in is legal from `confirmed`
only, setting the ticket's used flag and check-in timestamp; a ticket of a
`checked-in` registration fails `TicketAlreadyUsed`; a cancelled or unknown
ticket fails `TicketInvalid`. -/
def verifyTicket (tid now : Nat) (s : Sys) : Except Err Sys :=
  match findByTicket tid s with
  | none => .error .TicketInvalid
  | some r =>
    match r.state with
    | .confirmed =>
      .ok { s with
        regs := updBy Reg.id r.id
          (fun r0 => { r0 with state := .checkedIn, ticket := markUsed now r0.ticket }) s.regs }
    | .checkedIn => .error .TicketAlreadyUsed
    | .cancelled => .error .TicketInvalid
    | .pending => .error .TicketInvalid

/-- Modelled from the spec: registration `cancel` is legal from `pending` or
`confirmed`, barred once the owning event is `completed`; it releases the
capacity slot and leaves any issued ticket invalid. -/
def cancelRegistration (rid : Nat) (s : Sys) : Except Err Sys :=
  match findReg rid s with
  | none => .error .NotFound
  | some r =>
    match findEvent r.eventId s with
    | none => .error .NotFound
    | some e =>
      if e.state = .completed then .error .InvalidStateTransition
      else if r.state = .pending ∨ r.state = .confirmed then
        .ok { s with
          regs := updBy Reg.id rid (fun r0 => { r0 with state := .cancelled }) s.regs,
          events := updBy Event.id r.eventId releaseSlot s.events }
      else .error .InvalidStateTransition

/-- The atomic operations of the engine. -/
inductive Op where
  | createEvent (capacity : Nat) (requiresPayment : Bool) (oa ca : Nat)
  | publishEvent (eid : Nat)
  | closeEvent (eid : Nat)
  | completeEvent (eid : Nat)
  | cancelEvent (eid : Nat)
  | registerForEvent (eid pid now : Nat)
  | submitProof (rid : Nat)
  | approveProof (rid : Nat)
  | rejectProof (rid : Nat) (reason : String)
  | confirmRegistration (rid : Nat)
  | verifyTicket (tid now : Nat)
  | cancelRegistration (rid : Nat)

/-- Execute one operation. -/
def exec (op : Op) (s : Sys) : Except Err Sys :=
  match op with
  | .createEvent c p oa ca => createEvent c p oa ca s
  | .publishEvent eid => publishEvent eid s
  | .closeEvent eid => closeEvent eid s
  | .completeEvent eid => completeEvent eid s
  | .cancelEvent eid => cancelEvent eid s
  | .registerForEvent eid pid now => registerForEvent eid pid now s
  | .submitProof rid => submitProof rid s
  | .approveProof rid => approveProof rid s
  | .rejectProof rid reason => rejectProof rid reason s
  | .confirmRegistration rid => confirmRegistration rid s
  | .verifyTicket tid now => verifyTicket tid now s
  | .cancelRegistration rid => cancelRegistration rid s

/-- A failed operation surfaces its error to the caller and leaves the
shared state unchanged (every operation is atomic per the spec). -/
def applyOp (op : Op) (s : Sys) : Sys :=
  match exec op s with
  | .ok s2 => s2
  | .error _ => s

/-- Run a finite sequence of atomic operations — an arbitrary interleaving
of concurrent requests. -/
def run (s : Sys) : List Op → Sys
  | [] => s
  | op :: ops => run (applyOp op s) ops

/-- A state is reachable when some sequence of operations produces it from
the empty initial state. -/
def Reachable (s : Sys) : Prop := ∃ ops, run sys0 ops = s

/-- Whether a registration is an active (slot-holding) registration of the
event with identifier `eid`. -/
def activeFor (eid : Nat) (r : Reg) : Bool :=
  decide (r.eventId = eid) && regActive r

/-- Whether a registration of the event with identifier `eid` is in
`confirmed` or `checked-in` state. -/
def confirmedFor (eid : Nat) (r : Reg) : Bool :=
  decide (r.eventId = eid ∧ (r.state = RegState.confirmed ∨ r.state = RegState.checkedIn))

/-- The inductive well-formedness invariant of the engine state: fresh
identifiers are really fresh, every registration's event exists, the
capacity ledger count of a live event agrees with its active registrations
and respects capacity, confirmed-or-checked-in registrations never exceed a
positive capacity, a confirmed registration of a payment-required event has
an approved proof, and issued ticket identifiers are fresh and unique. -/
structure WF (s : Sys) : Prop where
  eventIdLt : ∀ e ∈ s.events, e.id < s.nextEventId
  eventIdNodup : (s.events.map Event.id).Nodup
  regIdLt : ∀ r ∈ s.regs, r.id < s.nextRegId
  regIdNodup : (s.regs.map Reg.id).Nodup
  regEvent : ∀ r ∈ s.regs, ∃ e ∈ s.events, e.id = r.eventId
  countEq : ∀ e ∈ s.events, e.state ≠ EventState.cancelled →
    e.count = s.regs.countP (activeFor e.id)
  countLe : ∀ e ∈ s.events, 0 < e.capacity → e.state ≠ EventState.cancelled →
    e.count ≤ e.capacity
  capSafe : ∀ e ∈ s.events, 0 < e.capacity →
    s.regs.countP (confirmedFor e.id) ≤ e.capacity
  payGate : ∀ r ∈ s.regs, ∀ e ∈ s.events, e.id = r.eventId →
    e.requiresPayment = true →
    (r.state = RegState.confirmed ∨ r.state = RegState.checkedIn) →
    proofApproved r = true
  tidLt : ∀ r ∈ s.regs, ∀ t, r.ticket = some t → t.tid < s.nextTicketId
  tidUnique : ∀ r1 ∈ s.regs, ∀ r2 ∈ s.regs, ∀ t1 t2, r1.ticket = some t1 →
    r2.ticket = some t2 → t1.tid = t2.tid → r1.id = r2.id
  openLive : ∀ r ∈ s.regs, ∀ e ∈ s.events, e.id = r.eventId →
    regOpen r = true → e.state ≠ EventState.cancelled

/-- The ticket with identifier `tid` is issued and every registration
holding it is in state `σ` — used with the terminal states `checkedIn` and
`cancelled` to show a ticket can never again be checked in. -/
def HolderState (tid : Nat) (σ : RegState) (s : Sys) : Prop :=
  (∃ r ∈ s.regs, holdsTicket tid r = true) ∧
    ∀ r ∈ s.regs, holdsTicket tid r = true → r.state = σ

/-- Modelled from the spec, ticket codec: the encoded token embeds the
ticket identifier, the event identifier and an integrity check computed from
them and a verification secret. -/
structure Token where
  tid : Nat
  eid : Nat
  check : Nat
deriving DecidableEq

/-- Modelled from the spec, ticket codec: `issue` encodes the ticket and
event identifiers together with the integrity check. -/
def issueToken (secret tid eid : Nat) : Token :=
  ⟨tid, eid, tid + eid + secret⟩

/-- Modelled from the spec, ticket codec: `decode` fails with
`MalformedToken` when the integrity check does not match and returns the
embedded ticket/event identifiers otherwise. -/
def decodeToken (secret : Nat) (t : Token) : Except Err (Nat × Nat) :=
  if t.check = t.tid + t.eid + secret then .ok (t.tid, t.eid)
  else .error .MalformedToken

/-- The three fields of an encoded token. -/
inductive TokenField where
  | fTid
  | fEid
  | fCheck
deriving DecidableEq

/-- Flip bit `k` of a natural number. -/
def flipBit (n k : Nat) : Nat := n ^^^ (2 ^ k)

/-- Corrupt a single bit of one field of a token. -/
def corruptToken (t : Token) (f : TokenField) (k : Nat) : Token :=
  match f with
  | .fTid => { t with tid := flipBit t.tid k }
  | .fEid => { t with eid := flipBit t.eid k }
  | .fCheck => { t with check := flipBit t.check k }

/-- Embeds `sendRegistrationEmail` of the email service source file: the
whole send (transporter creation included) runs in one try block; on success
the message info is returned and logged, on any failure the error is logged
and the fixed error `Failed to send email` is thrown to the caller.  The
delivery outcome of the external SMTP collaborator is the argument. -/
def sendRegistrationEmail (deliveryOutcome : Option String) : Except String String :=
  match deliveryOutcome with
  | some messageId => .ok messageId
  | none => .error "Failed to send email"

/-- Modelled from the spec: the confirmation flow first commits the
`confirm` transition, then dispatches the notification; a notification
failure is logged and is non-fatal — it neither undoes the confirmation nor
fails the calling transition. -/
def confirmAndNotify (rid : Nat) (deliveryOutcome : Option String) (s : Sys) :
    Except Err (Sys × List String) :=
  match confirmRegistration rid s with
  | .error e => .error e
  | .ok s2 =>
    match sendRegistrationEmail deliveryOutcome with
    | .ok mid => .ok (s2, ["Email sent: " ++ mid])
    | .error e => .ok (s2, ["Email sending error: " ++ e])

/-- An HTTP response as the Express error handler builds it: a status code
and a JSON body with a `message` field and an optional `error` field (a
field set to `undefined` is absent from the serialized body). -/
structure HttpResponse where
  status : Nat
  message : String
  error : Option String
deriving DecidableEq

/-- Embeds the top-level Express error handler of `backend/src/app.js`: it
logs the stack and responds 500 with the fixed message, attaching the
underlying error message only when `NODE_ENV` is `development`. -/
def errorHandler (nodeEnv : String) (errMessage : String) : HttpResponse :=
  { status := 500
    message := "Something went wrong!"
    error := if nodeEnv = "development" then some errMessage else none }

/-! Generic lemmas about keyed lookup and update in record lists. -/

/-- A concrete scenario: a free published event of capacity 2 with one
confirmed (ticketed) registration and one pending registration. -/
def opsA : List Op :=
  [.createEvent 2 false 0 10, .publishEvent 0, .registerForEvent 0 7 3,
   .registerForEvent 0 8 3, .confirmRegistration 0]

/-- A concrete scenario: a payment-required event with a pending proof and a
free event with a pending registration. -/
def opsP : List Op :=
  [.createEvent 2 true 0 10, .publishEvent 0, .createEvent 3 false 0 10,
   .publishEvent 1, .registerForEvent 0 7 3, .registerForEvent 1 8 3, .submitProof 0]

/-- A concrete scenario: a published event with three registrations, one of
them confirmed with a ticket. -/
def opsC : List Op :=
  [.createEvent 3 false 0 10, .publishEvent 0, .registerForEvent 0 7 3,
   .registerForEvent 0 8 3, .registerForEvent 0 9 4, .confirmRegistration 0]

/-- A concrete scenario: a completed event with a pending registration. -/
def opsD : List Op :=
  [.createEvent 2 false 0 10, .publishEvent 0, .registerForEvent 0 7 3,
   .closeEvent 0, .completeEvent 0]

/-- A concrete scenario: a published event, not yet registered for. -/
def opsE : List Op :=
  [.createEvent 2 false 0 10, .publishEvent 0]

/-- A concrete scenario: a published event with one pending registration. -/
def opsB : List Op :=
  [.createEvent 2 false 0 10, .publishEvent 0, .registerForEvent 0 7 3]

/-- A concrete state: one published event of capacity 2 holding one pending
registration. -/
def sC2 : Sys :=
  ⟨[⟨0, 2, false, 0, 10, .published, 1⟩], [⟨0, 0, 7, .pending, none, none⟩], 1, 1, 0⟩

theorem updBy_eq_self {key : α → Nat} {k : Nat} {f : α → α} {l : List α}
    (h : ∀ x ∈ l, key x ≠ k) : updBy key k f l = l := by
  induction l with
  | nil => rfl
  | cons a t ih =>
    have ha : key a ≠ k := h a (List.mem_cons_self a t)
    have ht := ih (fun x hx => h x (List.mem_cons_of_mem a hx))
    simp only [updBy, List.map_cons] at ht ⊢
    rw [if_neg (by simpa using ha), ht]

theorem map_key_updBy {key : α → Nat} {k : Nat} {f : α → α} {l : List α}
    (hf : ∀ x, key x = k → key (f x) = key x) :
    (updBy key k f l).map key = l.map key := by
  induction l with
  | nil => rfl
  | cons a t ih =>
    simp only [updBy, List.map_cons] at ih ⊢
    rw [ih]
    by_cases ha : key a = k
    · simp [ha, hf a ha]
    · simp [ha]

theorem findBy_mem {key : α → Nat} {k : Nat} {l : List α} {x : α}
    (h : findBy key k l = some x) : x ∈ l ∧ key x = k := by
  refine ⟨List.mem_of_find?_eq_some h, ?_⟩
  have := List.find?_some h
  simpa using this

theorem findBy_eq_none_iff {key : α → Nat} {k : Nat} {l : List α} :
    findBy key k l = none ↔ ∀ x ∈ l, key x ≠ k := by
  simp [findBy, List.find?_eq_none]

theorem findBy_updBy {key : α → Nat} {k k2 : Nat} (f : α → α) {l : List α}
    (hf : ∀ x, key x = k → key (f x) = key x) :
    findBy key k2 (updBy key k f l) =
      (findBy key k2 l).map (fun x => if key x == k then f x else x) := by
  unfold findBy updBy
  rw [List.find?_map]
  have hp : ((fun x => key x == k2) ∘ fun x => if (key x == k) = true then f x else x)
      = fun x => key x == k2 := by
    funext x
    by_cases hx : key x = k
    · simp [Function.comp, hx, hf x hx]
    · simp [Function.comp, hx]
  rw [hp]

theorem countP_updBy (key : α → Nat) (k : Nat) (f : α → α) {l : List α}
    (p : α → Bool) (hnd : (l.map key).Nodup) (x0 : α) (hx : x0 ∈ l)
    (hk : key x0 = k) :
    (updBy key k f l).countP p + (if p x0 then 1 else 0) =
      l.countP p + (if p (f x0) then 1 else 0) := by
  induction l with
  | nil => cases hx
  | cons a t ih =>
    simp only [List.map_cons, List.nodup_cons] at hnd
    rcases List.mem_cons.mp hx with rfl | hmem
    · have ht : ∀ x ∈ t, key x ≠ k := by
        intro x hxt hxk
        have hxx : key x = key x0 := by rw [hxk, hk]
        exact hnd.1 (hxx ▸ List.mem_map_of_mem key hxt)
      have hupd : updBy key k f t = t := updBy_eq_self ht
      simp only [updBy, List.map_cons] at hupd ⊢
      rw [if_pos (by simp [hk]), hupd, List.countP_cons, List.countP_cons]
      omega
    · have ha : key a ≠ k := by
        intro hak
        have hxx : key a = key x0 := by rw [hak, hk]
        refine hnd.1 ?_
        rw [hxx]
        exact List.mem_map_of_mem key hmem
      have hrec := ih hnd.2 hmem
      simp only [updBy, List.map_cons] at hrec ⊢
      rw [if_neg (by simpa using ha), List.countP_cons, List.countP_cons]
      omega

theorem countP_map_le {p : α → Bool} {g : α → α} {l : List α}
    (h : ∀ x ∈ l, p (g x) = true → p x = true) :
    (l.map g).countP p ≤ l.countP p := by
  rw [List.countP_map]
  exact List.countP_mono_left (by intro x hx hp; exact h x hx hp)

theorem countP_lt_of_mem {p q : α → Bool} {l : List α}
    (h : ∀ x ∈ l, p x = true → q x = true) (x0 : α) (hx : x0 ∈ l)
    (hq : q x0 = true) (hp : p x0 = false) :
    l.countP p < l.countP q := by
  induction l with
  | nil => cases hx
  | cons a t ih =>
    rw [List.countP_cons, List.countP_cons]
    rcases List.mem_cons.mp hx with rfl | hmem
    · have hmono : t.countP p ≤ t.countP q :=
        List.countP_mono_left (fun x hxt => h x (by simp [hxt]))
      simp [hp, hq]
      omega
    · have := ih (fun x hxt => h x (by simp [hxt])) hmem
      have hpq : p a = true → q a = true := h a (by simp)
      by_cases hpa : p a = true
      · simp [hpa, hpq hpa]
        omega
      · simp only [Bool.not_eq_true] at hpa
        simp [hpa]
        omega

theorem key_inj_of_nodup {key : α → Nat} {l : List α} {x y : α}
    (hnd : (l.map key).Nodup) (hx : x ∈ l) (hy : y ∈ l)
    (h : key x = key y) : x = y := by
  induction l with
  | nil => cases hx
  | cons a t ih =>
    simp only [List.map_cons, List.nodup_cons] at hnd
    rcases List.mem_cons.mp hx with rfl | hxt
    · rcases List.mem_cons.mp hy with rfl | hyt
      · rfl
      · exact absurd (h ▸ List.mem_map_of_mem key hyt) hnd.1
    · rcases List.mem_cons.mp hy with rfl | hyt
      · exact absurd (h ▸ List.mem_map_of_mem key hxt) hnd.1
      · exact ih hnd.2 hxt hyt

theorem findBy_append_left {key : α → Nat} {k : Nat} {l : List α} {x : α}
    (h : findBy key k l = some x) (l2 : List α) :
    findBy key k (l ++ l2) = some x := by
  unfold findBy at h ⊢
  rw [List.find?_append, h]
  rfl

theorem mem_of_mem_updBy {key : α → Nat} {k : Nat} {f : α → α} {l : List α} {y : α}
    (hy : y ∈ updBy key k f l) : ∃ x ∈ l, y = if key x == k then f x else x := by
  rcases List.mem_map.mp hy with ⟨x, hx, rfl⟩
  exact ⟨x, hx, rfl⟩

theorem countP_updBy_congr {key : α → Nat} {k : Nat} {f : α → α} {l : List α} {p : α → Bool}
    (hp : ∀ x ∈ l, p (if key x == k then f x else x) = p x) :
    (updBy key k f l).countP p = l.countP p := by
  unfold updBy
  rw [List.countP_map]
  refine List.countP_congr (fun x hx => ?_)
  simp only [Function.comp_apply]
  rw [hp x hx]

/-! Inversion lemmas: what a successful operation tells about its input and
its output state. -/

theorem reserveSlot_ok {e e2 : Event} (h : reserveSlot e = .ok e2) :
    e2 = { e with count := e.count + 1 } ∧ (e.capacity = 0 ∨ e.count < e.capacity) := by
  unfold reserveSlot at h
  split at h
  · rename_i hc
    cases h
    exact ⟨rfl, Or.inl hc⟩
  · split at h
    · rename_i hlt
      cases h
      exact ⟨rfl, Or.inr hlt⟩
    · cases h

theorem createEvent_ok {c : Nat} {p : Bool} {oa ca : Nat} {s s2 : Sys}
    (h : createEvent c p oa ca s = .ok s2) :
    s2 = { s with
      events := s.events ++ [⟨s.nextEventId, c, p, oa, ca, .draft, 0⟩],
      nextEventId := s.nextEventId + 1 } := by
  unfold createEvent at h
  cases h
  rfl

theorem publishEvent_ok {eid : Nat} {s s2 : Sys} (h : publishEvent eid s = .ok s2) :
    ∃ e, findEvent eid s = some e ∧ e.state = .draft ∧
      s2 = { s with
        events := updBy Event.id eid (fun e0 => { e0 with state := .published }) s.events } := by
  unfold publishEvent at h
  split at h
  · cases h
  · rename_i e hfe
    split at h
    · rename_i hdr
      cases h
      exact ⟨e, hfe, hdr, rfl⟩
    · cases h

theorem closeEvent_ok {eid : Nat} {s s2 : Sys} (h : closeEvent eid s = .ok s2) :
    ∃ e, findEvent eid s = some e ∧ e.state = .published ∧
      s2 = { s with
        events := updBy Event.id eid (fun e0 => { e0 with state := .closed }) s.events } := by
  unfold closeEvent at h
  split at h
  · cases h
  · rename_i e hfe
    split at h
    · rename_i hp
      cases h
      exact ⟨e, hfe, hp, rfl⟩
    · cases h

theorem completeEvent_ok {eid : Nat} {s s2 : Sys} (h : completeEvent eid s = .ok s2) :
    ∃ e, findEvent eid s = some e ∧ e.state = .closed ∧
      s2 = { s with
        events := updBy Event.id eid (fun e0 => { e0 with state := .completed }) s.events } := by
  unfold completeEvent at h
  split at h
  · cases h
  · rename_i e hfe
    split at h
    · rename_i hp
      cases h
      exact ⟨e, hfe, hp, rfl⟩
    · cases h

theorem cancelEvent_ok {eid : Nat} {s s2 : Sys} (h : cancelEvent eid s = .ok s2) :
    ∃ e, findEvent eid s = some e ∧ (e.state = .draft ∨ e.state = .published) ∧
      s2 = { s with
        events := updBy Event.id eid
          (fun e0 => { e0 with state := .cancelled, count := 0 }) s.events,
        regs := s.regs.map (fun r =>
          if r.eventId == eid && regOpen r then { r with state := .cancelled } else r) } := by
  unfold cancelEvent at h
  split at h
  · cases h
  · rename_i e hfe
    split at h
    · rename_i hp
      cases h
      exact ⟨e, hfe, hp, rfl⟩
    · cases h

theorem registerForEvent_ok {eid pid now : Nat} {s s2 : Sys}
    (h : registerForEvent eid pid now s = .ok s2) :
    ∃ e, findEvent eid s = some e ∧ e.state = .published ∧
      (e.openAt ≤ now ∧ now ≤ e.closeAt) ∧
      s.regs.any (fun r => r.eventId == eid && r.participantId == pid && regActive r) = false ∧
      (e.capacity = 0 ∨ e.count < e.capacity) ∧
      s2 = { s with
        events := updBy Event.id eid (fun _ => { e with count := e.count + 1 }) s.events,
        regs := s.regs ++ [⟨s.nextRegId, eid, pid, .pending, none, none⟩],
        nextRegId := s.nextRegId + 1 } := by
  unfold registerForEvent at h
  split at h
  · cases h
  · rename_i e hfe
    split at h
    · cases h
    · rename_i hpub
      split at h
      · cases h
      · rename_i hwin
        split at h
        · cases h
        · rename_i hdup
          split at h
          · cases h
          · rename_i e2 hres
            obtain ⟨he2, hcap⟩ := reserveSlot_ok hres
            subst he2
            cases h
            refine ⟨e, hfe, ?_, ?_, ?_, hcap, rfl⟩
            · by_contra hne
              exact hpub hne
            · omega
            · simpa using hdup

theorem submitProof_ok {rid : Nat} {s s2 : Sys} (h : submitProof rid s = .ok s2) :
    ∃ r e, findReg rid s = some r ∧ findEvent r.eventId s = some e ∧
      e.requiresPayment = true ∧ r.state = .pending ∧
      canSubmitProof r.payProof = true ∧
      s2 = { s with
        regs := updBy Reg.id rid
          (fun r0 => { r0 with payProof := some ⟨.pending, none⟩ }) s.regs } := by
  unfold submitProof at h
  split at h
  · cases h
  · rename_i r hfr
    split at h
    · cases h
    · rename_i e hfe
      split at h
      · cases h
      · rename_i hreq
        split at h
        · cases h
        · rename_i hpend
          split at h
          · rename_i hcan
            cases h
            refine ⟨r, e, hfr, hfe, ?_, ?_, hcan, rfl⟩
            · cases hb : e.requiresPayment
              · exact absurd hb hreq
              · rfl
            · by_contra hne
              exact hpend hne
          · cases h

theorem confirmRegistration_ok {rid : Nat} {s s2 : Sys}
    (h : confirmRegistration rid s = .ok s2) :
    ∃ r e, findReg rid s = some r ∧ findEvent r.eventId s = some e ∧
      ¬(e.state = .completed ∨ e.state = .cancelled) ∧ r.state = .pending ∧
      ¬(e.requiresPayment = true ∧ proofApproved r = false) ∧
      s2 = { s with
        regs := updBy Reg.id rid
          (fun r0 => { r0 with
            state := .confirmed,
            ticket := some ⟨s.nextTicketId, false, none⟩ }) s.regs,
        nextTicketId := s.nextTicketId + 1 } := by
  unfold confirmRegistration at h
  split at h
  · cases h
  · rename_i r hfr
    split at h
    · cases h
    · rename_i e hfe
      split at h
      · cases h
      · rename_i hterm
        split at h
        · cases h
        · rename_i hpend
          split at h
          · cases h
          · rename_i hgate
            cases h
            refine ⟨r, e, hfr, hfe, hterm, ?_, hgate, rfl⟩
            by_contra hne
            exact hpend hne

theorem approveProof_ok {rid : Nat} {s s2 : Sys} (h : approveProof rid s = .ok s2) :
    ∃ r p, findReg rid s = some r ∧ r.payProof = some p ∧ p.state = .pending ∧
      confirmRegistration rid
        { s with
          regs := updBy Reg.id rid
            (fun r0 => { r0 with payProof := some ⟨.approved, none⟩ }) s.regs } = .ok s2 := by
  unfold approveProof at h
  split at h
  · cases h
  · rename_i r hfr
    split at h
    · cases h
    · rename_i p hpp
      split at h
      · rename_i hpend
        exact ⟨r, p, hfr, hpp, hpend, h⟩
      · cases h

theorem rejectProof_ok {rid : Nat} {reason : String} {s s2 : Sys}
    (h : rejectProof rid reason s = .ok s2) :
    ∃ r p, findReg rid s = some r ∧ r.payProof = some p ∧ p.state = .pending ∧
      s2 = { s with
        regs := updBy Reg.id rid
          (fun r0 => { r0 with payProof := some ⟨.rejected, some reason⟩ }) s.regs } := by
  unfold rejectProof at h
  split at h
  · cases h
  · rename_i r hfr
    split at h
    · cases h
    · rename_i p hpp
      split at h
      · rename_i hpend
        cases h
        exact ⟨r, p, hfr, hpp, hpend, rfl⟩
      · cases h

theorem verifyTicket_ok {tid now : Nat} {s s2 : Sys}
    (h : verifyTicket tid now s = .ok s2) :
    ∃ r, findByTicket tid s = some r ∧ r.state = .confirmed ∧
      s2 = { s with
        regs := updBy Reg.id r.id
          (fun r0 => { r0 with
            state := .checkedIn,
            ticket := markUsed now r0.ticket }) s.regs } := by
  unfold verifyTicket at h
  split at h
  · cases h
  · rename_i r hfr
    split at h
    · rename_i hconf
      cases h
      exact ⟨r, hfr, hconf, rfl⟩
    · cases h
    · cases h
    · cases h

theorem cancelRegistration_ok {rid : Nat} {s s2 : Sys}
    (h : cancelRegistration rid s = .ok s2) :
    ∃ r e, findReg rid s = some r ∧ findEvent r.eventId s = some e ∧
      e.state ≠ .completed ∧ (r.state = .pending ∨ r.state = .confirmed) ∧
      s2 = { s with
        regs := updBy Reg.id rid (fun r0 => { r0 with state := .cancelled }) s.regs,
        events := updBy Event.id r.eventId releaseSlot s.events } := by
  unfold cancelRegistration at h
  split at h
  · cases h
  · rename_i r hfr
    split at h
    · cases h
    · rename_i e hfe
      split at h
      · cases h
      · rename_i hcomp
        split at h
        · rename_i hopen
          cases h
          exact ⟨r, e, hfr, hfe, hcomp, hopen, rfl⟩
        · cases h

/-! Preservation of the well-formedness invariant by each operation. -/

theorem findEvent_mem {eid : Nat} {s : Sys} {e : Event} (h : findEvent eid s = some e) :
    e ∈ s.events ∧ e.id = eid := findBy_mem h

theorem findReg_mem {rid : Nat} {s : Sys} {r : Reg} (h : findReg rid s = some r) :
    r ∈ s.regs ∧ r.id = rid := findBy_mem h

theorem reg_eventId_lt {s : Sys} {r : Reg} (hwf : WF s) (hr : r ∈ s.regs) :
    r.eventId < s.nextEventId := by
  rcases hwf.regEvent r hr with ⟨e, he, heq⟩
  exact heq ▸ hwf.eventIdLt e he

theorem WF_createEvent {c : Nat} {p : Bool} {oa ca : Nat} {s s2 : Sys}
    (hwf : WF s) (h : createEvent c p oa ca s = .ok s2) : WF s2 := by
  rw [createEvent_ok h]
  refine ⟨?_, ?_, ?_, ?_, ?_, ?_, ?_, ?_, ?_, ?_, ?_, ?_⟩
  · intro e he
    rcases List.mem_append.mp he with h1 | h1
    · exact Nat.lt_succ_of_lt (hwf.eventIdLt e h1)
    · simp only [List.mem_singleton] at h1
      subst h1
      exact Nat.lt_succ_self _
  · rw [List.map_append]
    rw [List.nodup_append]
    refine ⟨hwf.eventIdNodup, List.nodup_singleton _, ?_⟩
    intro a ha hb
    simp only [List.map_cons, List.map_nil, List.mem_singleton] at hb
    rcases List.mem_map.mp ha with ⟨e, he, rfl⟩
    exact absurd hb (Nat.ne_of_lt (hwf.eventIdLt e he))
  · exact hwf.regIdLt
  · exact hwf.regIdNodup
  · intro r hr
    rcases hwf.regEvent r hr with ⟨e, he, heq⟩
    exact ⟨e, List.mem_append_left _ he, heq⟩
  · intro e he hlive
    rcases List.mem_append.mp he with h1 | h1
    · exact hwf.countEq e h1 hlive
    · simp only [List.mem_singleton] at h1
      subst h1
      symm
      rw [List.countP_eq_zero]
      intro r hr
      have hlt : r.eventId < s.nextEventId := reg_eventId_lt hwf hr
      simp only [activeFor, Bool.and_eq_true, decide_eq_true_eq]
      rintro ⟨hEq, -⟩
      omega
  · intro e he hcap hlive
    rcases List.mem_append.mp he with h1 | h1
    · exact hwf.countLe e h1 hcap hlive
    · simp only [List.mem_singleton] at h1
      subst h1
      exact Nat.zero_le _
  · intro e he hcap
    rcases List.mem_append.mp he with h1 | h1
    · exact hwf.capSafe e h1 hcap
    · simp only [List.mem_singleton] at h1
      subst h1
      have : List.countP (confirmedFor s.nextEventId) s.regs = 0 := by
        rw [List.countP_eq_zero]
        intro r hr
        have hlt : r.eventId < s.nextEventId := reg_eventId_lt hwf hr
        simp only [confirmedFor, decide_eq_true_eq, not_and]
        intro hEq
        omega
      simp only [this]
      exact Nat.zero_le _
  · intro r hr e he hid hpay hst
    rcases List.mem_append.mp he with h1 | h1
    · exact hwf.payGate r hr e h1 hid hpay hst
    · simp only [List.mem_singleton] at h1
      subst h1
      have hlt : r.eventId < s.nextEventId := reg_eventId_lt hwf hr
      simp only at hid
      omega
  · exact hwf.tidLt
  · exact hwf.tidUnique
  · intro r hr e he hid hopen2
    rcases List.mem_append.mp he with h1 | h1
    · exact hwf.openLive r hr e h1 hid hopen2
    · simp only [List.mem_singleton] at h1
      subst h1
      intro hc
      cases hc

theorem WF_setEventState {eid : Nat} {s : Sys} {e : Event} {σ : EventState}
    (hwf : WF s) (hfe : findEvent eid s = some e) (hlive : e.state ≠ .cancelled)
    (hσ : σ ≠ EventState.cancelled) :
    WF { s with
      events := updBy Event.id eid (fun e0 => { e0 with state := σ }) s.events } := by
  obtain ⟨hemem, heid⟩ := findEvent_mem hfe
  refine ⟨?_, ?_, ?_, ?_, ?_, ?_, ?_, ?_, ?_, ?_, ?_, ?_⟩
  · intro y hy
    rcases mem_of_mem_updBy hy with ⟨x, hx, rfl⟩
    by_cases hk : x.id = eid
    · rw [if_pos (by simp [hk])]
      exact hwf.eventIdLt x hx
    · rw [if_neg (by simp [hk])]
      exact hwf.eventIdLt x hx
  · have hmk : (updBy Event.id eid (fun e0 => { e0 with state := σ }) s.events).map Event.id
        = s.events.map Event.id := map_key_updBy (fun x _ => rfl)
    simpa [hmk] using hwf.eventIdNodup
  · exact hwf.regIdLt
  · exact hwf.regIdNodup
  · intro r hr
    rcases hwf.regEvent r hr with ⟨e1, he1, heq1⟩
    refine ⟨if Event.id e1 == eid then { e1 with state := σ } else e1, ?_, ?_⟩
    · exact List.mem_map_of_mem _ he1
    · by_cases hk : e1.id = eid
      · rw [if_pos (by simp [hk])]
        exact heq1
      · rw [if_neg (by simp [hk])]
        exact heq1
  · intro y hy hylive
    rcases mem_of_mem_updBy hy with ⟨x, hx, rfl⟩
    by_cases hk : x.id = eid
    · rw [if_pos (by simp [hk])] at hylive ⊢
      have hxe : x = e :=
        key_inj_of_nodup hwf.eventIdNodup hx hemem (by rw [hk, heid])
      subst hxe
      simpa using hwf.countEq x hx hlive
    · rw [if_neg (by simp [hk])] at hylive ⊢
      exact hwf.countEq x hx hylive
  · intro y hy hcap hylive
    rcases mem_of_mem_updBy hy with ⟨x, hx, rfl⟩
    by_cases hk : x.id = eid
    · rw [if_pos (by simp [hk])] at hcap hylive ⊢
      have hxe : x = e :=
        key_inj_of_nodup hwf.eventIdNodup hx hemem (by rw [hk, heid])
      subst hxe
      simpa using hwf.countLe x hx (by simpa using hcap) hlive
    · rw [if_neg (by simp [hk])] at hcap hylive ⊢
      exact hwf.countLe x hx hcap hylive
  · intro y hy hcap
    rcases mem_of_mem_updBy hy with ⟨x, hx, rfl⟩
    by_cases hk : x.id = eid
    · rw [if_pos (by simp [hk])] at hcap ⊢
      simpa using hwf.capSafe x hx (by simpa using hcap)
    · rw [if_neg (by simp [hk])] at hcap ⊢
      exact hwf.capSafe x hx hcap
  · intro r hr y hy hid hpay hst
    rcases mem_of_mem_updBy hy with ⟨x, hx, rfl⟩
    by_cases hk : x.id = eid
    · rw [if_pos (by simp [hk])] at hid hpay
      exact hwf.payGate r hr x hx (by simpa using hid) (by simpa using hpay) hst
    · rw [if_neg (by simp [hk])] at hid hpay
      exact hwf.payGate r hr x hx hid hpay hst
  · exact hwf.tidLt
  · exact hwf.tidUnique
  · intro r hr y hy hid hopen2
    rcases mem_of_mem_updBy hy with ⟨x, hx, rfl⟩
    by_cases hk : x.id = eid
    · rw [if_pos (by simp [hk])] at hid ⊢
      intro hc
      exact hσ hc
    · rw [if_neg (by simp [hk])] at hid ⊢
      exact hwf.openLive r hr x hx hid hopen2

theorem WF_publishEvent {eid : Nat} {s s2 : Sys}
    (hwf : WF s) (h : publishEvent eid s = .ok s2) : WF s2 := by
  rcases publishEvent_ok h with ⟨e, hfe, hst, rfl⟩
  exact WF_setEventState hwf hfe (by rw [hst]; intro hc; cases hc) (by intro hc; cases hc)

theorem WF_closeEvent {eid : Nat} {s s2 : Sys}
    (hwf : WF s) (h : closeEvent eid s = .ok s2) : WF s2 := by
  rcases closeEvent_ok h with ⟨e, hfe, hst, rfl⟩
  exact WF_setEventState hwf hfe (by rw [hst]; intro hc; cases hc) (by intro hc; cases hc)

theorem WF_completeEvent {eid : Nat} {s s2 : Sys}
    (hwf : WF s) (h : completeEvent eid s = .ok s2) : WF s2 := by
  rcases completeEvent_ok h with ⟨e, hfe, hst, rfl⟩
  exact WF_setEventState hwf hfe (by rw [hst]; intro hc; cases hc) (by intro hc; cases hc)

theorem WF_registerForEvent {eid pid now : Nat} {s s2 : Sys}
    (hwf : WF s) (h : registerForEvent eid pid now s = .ok s2) : WF s2 := by
  rcases registerForEvent_ok h with ⟨e, hfe, hpub, hwin, hdup, hres, rfl⟩
  obtain ⟨hemem, heid⟩ := findEvent_mem hfe
  have halive : e.state ≠ EventState.cancelled := by
    rw [hpub]
    intro hc
    cases hc
  refine ⟨?_, ?_, ?_, ?_, ?_, ?_, ?_, ?_, ?_, ?_, ?_, ?_⟩
  · intro y hy
    rcases mem_of_mem_updBy hy with ⟨x, hx, rfl⟩
    by_cases hk : x.id = eid
    · rw [if_pos (by simp [hk])]
      simpa using hwf.eventIdLt e hemem
    · rw [if_neg (by simp [hk])]
      exact hwf.eventIdLt x hx
  · have hmk : (updBy Event.id eid (fun _ => { e with count := e.count + 1 }) s.events).map Event.id
        = s.events.map Event.id :=
      map_key_updBy (fun x hx => by simp [heid, hx])
    simpa [hmk] using hwf.eventIdNodup
  · intro r hr
    rcases List.mem_append.mp hr with h1 | h1
    · exact Nat.lt_succ_of_lt (hwf.regIdLt r h1)
    · simp only [List.mem_singleton] at h1
      subst h1
      exact Nat.lt_succ_self _
  · have hgoal : (List.map Reg.id
        (s.regs ++ [⟨s.nextRegId, eid, pid, .pending, none, none⟩])).Nodup := by
      rw [List.map_append, List.nodup_append]
      refine ⟨hwf.regIdNodup, List.nodup_singleton _, ?_⟩
      intro a ha hb
      simp only [List.map_cons, List.map_nil, List.mem_singleton] at hb
      rcases List.mem_map.mp ha with ⟨r, hrm, rfl⟩
      have := hwf.regIdLt r hrm
      omega
    exact hgoal
  · intro r hr
    rcases List.mem_append.mp hr with h1 | h1
    · rcases hwf.regEvent r h1 with ⟨e1, he1, heq1⟩
      refine ⟨if Event.id e1 == eid then { e with count := e.count + 1 } else e1,
        List.mem_map_of_mem _ he1, ?_⟩
      by_cases hk : e1.id = eid
      · rw [if_pos (by simp [hk])]
        show e.id = r.eventId
        rw [heid, ← hk]
        exact heq1
      · rw [if_neg (by simp [hk])]
        exact heq1
    · simp only [List.mem_singleton] at h1
      subst h1
      refine ⟨if Event.id e == eid then { e with count := e.count + 1 } else e,
        List.mem_map_of_mem _ hemem, ?_⟩
      rw [if_pos (by simp [heid])]
      show e.id = eid
      exact heid
  · intro y hy hylive
    rcases mem_of_mem_updBy hy with ⟨x, hx, rfl⟩
    by_cases hk : x.id = eid
    · rw [if_pos (by simp [hk])] at hylive ⊢
      have hc1 := hwf.countEq e hemem halive
      have hnr : activeFor e.id (⟨s.nextRegId, eid, pid, .pending, none, none⟩ : Reg) = true := by
        simp [activeFor, regActive, heid]
      show e.count + 1 =
        List.countP (activeFor e.id) (s.regs ++ [⟨s.nextRegId, eid, pid, .pending, none, none⟩])
      rw [List.countP_append, ← hc1]
      simp [List.countP_cons, hnr]
    · rw [if_neg (by simp [hk])] at hylive ⊢
      have hc1 := hwf.countEq x hx hylive
      have hne : eid ≠ x.id := fun hEq => hk hEq.symm
      have hnr : activeFor x.id (⟨s.nextRegId, eid, pid, .pending, none, none⟩ : Reg) = false := by
        simp [activeFor, hne]
      show x.count =
        List.countP (activeFor x.id) (s.regs ++ [⟨s.nextRegId, eid, pid, .pending, none, none⟩])
      rw [List.countP_append, ← hc1]
      simp [List.countP_cons, hnr]
  · intro y hy hcap hylive
    rcases mem_of_mem_updBy hy with ⟨x, hx, rfl⟩
    by_cases hk : x.id = eid
    · rw [if_pos (by simp [hk])] at hcap hylive ⊢
      show e.count + 1 ≤ e.capacity
      have hcap2 : 0 < e.capacity := by simpa using hcap
      rcases hres with h0 | hlt
      · omega
      · omega
    · rw [if_neg (by simp [hk])] at hcap hylive ⊢
      exact hwf.countLe x hx hcap hylive
  · intro y hy hcap
    rcases mem_of_mem_updBy hy with ⟨x, hx, rfl⟩
    have hnrc : ∀ z : Nat,
        confirmedFor z (⟨s.nextRegId, eid, pid, .pending, none, none⟩ : Reg) = false := by
      intro z
      simp [confirmedFor]
    by_cases hk : x.id = eid
    · rw [if_pos (by simp [hk])] at hcap ⊢
      show List.countP (confirmedFor e.id)
          (s.regs ++ [⟨s.nextRegId, eid, pid, .pending, none, none⟩]) ≤ e.capacity
      rw [List.countP_append]
      simp only [List.countP_cons, List.countP_nil, hnrc]
      simpa using hwf.capSafe e hemem (by simpa using hcap)
    · rw [if_neg (by simp [hk])] at hcap ⊢
      show List.countP (confirmedFor x.id)
          (s.regs ++ [⟨s.nextRegId, eid, pid, .pending, none, none⟩]) ≤ x.capacity
      rw [List.countP_append]
      simp only [List.countP_cons, List.countP_nil, hnrc]
      simpa using hwf.capSafe x hx hcap
  · intro r hr y hy hid hpay hst
    rcases List.mem_append.mp hr with h1 | h1
    · rcases mem_of_mem_updBy hy with ⟨x, hx, rfl⟩
      by_cases hk : x.id = eid
      · rw [if_pos (by simp [hk])] at hid hpay
        exact hwf.payGate r h1 e hemem (by simpa using hid) (by simpa using hpay) hst
      · rw [if_neg (by simp [hk])] at hid hpay
        exact hwf.payGate r h1 x hx hid hpay hst
    · simp only [List.mem_singleton] at h1
      subst h1
      rcases hst with h2 | h2
      · cases h2
      · cases h2
  · intro r hr t ht
    rcases List.mem_append.mp hr with h1 | h1
    · exact hwf.tidLt r h1 t ht
    · simp only [List.mem_singleton] at h1
      subst h1
      cases ht
  · intro r1 hr1 r2 hr2 t1 t2 ht1 ht2 htid
    rcases List.mem_append.mp hr1 with h1 | h1
    · rcases List.mem_append.mp hr2 with h2 | h2
      · exact hwf.tidUnique r1 h1 r2 h2 t1 t2 ht1 ht2 htid
      · simp only [List.mem_singleton] at h2
        subst h2
        cases ht2
    · simp only [List.mem_singleton] at h1
      subst h1
      cases ht1
  · intro r hr y hy hid hopen2
    rcases List.mem_append.mp hr with h1 | h1
    · rcases mem_of_mem_updBy hy with ⟨x, hx, rfl⟩
      by_cases hk : x.id = eid
      · rw [if_pos (by simp [hk])] at hid ⊢
        show e.state ≠ EventState.cancelled
        exact halive
      · rw [if_neg (by simp [hk])] at hid ⊢
        exact hwf.openLive r h1 x hx hid hopen2
    · simp only [List.mem_singleton] at h1
      subst h1
      rcases mem_of_mem_updBy hy with ⟨x, hx, rfl⟩
      by_cases hk : x.id = eid
      · rw [if_pos (by simp [hk])] at hid ⊢
        show e.state ≠ EventState.cancelled
        exact halive
      · rw [if_neg (by simp [hk])] at hid ⊢
        exact absurd (by simpa using hid) hk

theorem WF_updProof {rid : Nat} {s : Sys} {r : Reg} {pp : Option PaymentProof}
    (hwf : WF s) (hfr : findReg rid s = some r)
    (hgate : ∀ e ∈ s.events, e.id = r.eventId → e.requiresPayment = true →
      (r.state = RegState.confirmed ∨ r.state = RegState.checkedIn) →
      proofApproved { r with payProof := pp } = true) :
    WF { s with regs := updBy Reg.id rid (fun r0 => { r0 with payProof := pp }) s.regs } := by
  obtain ⟨hrmem, hrid⟩ := findReg_mem hfr
  have keyId : ∀ y : Reg, (if Reg.id y == rid then { y with payProof := pp } else y).id = y.id := by
    intro y
    by_cases hk : y.id = rid
    · simp [hk]
    · simp [hk]
  have keyTicket : ∀ y : Reg,
      (if Reg.id y == rid then { y with payProof := pp } else y).ticket = y.ticket := by
    intro y
    by_cases hk : y.id = rid
    · simp [hk]
    · simp [hk]
  have hcong : ∀ q : Reg → Bool, (∀ x : Reg, q { x with payProof := pp } = q x) →
      List.countP q (updBy Reg.id rid (fun r0 => { r0 with payProof := pp }) s.regs)
        = List.countP q s.regs := by
    intro q hq
    refine countP_updBy_congr (fun x hx => ?_)
    by_cases hk : x.id = rid
    · rw [if_pos (by simp [hk])]
      exact hq x
    · rw [if_neg (by simp [hk])]
  refine ⟨?_, ?_, ?_, ?_, ?_, ?_, ?_, ?_, ?_, ?_, ?_, ?_⟩
  · exact hwf.eventIdLt
  · exact hwf.eventIdNodup
  · intro y hy
    rcases mem_of_mem_updBy hy with ⟨x, hx, rfl⟩
    rw [keyId x]
    exact hwf.regIdLt x hx
  · have hmk : (updBy Reg.id rid (fun r0 => { r0 with payProof := pp }) s.regs).map Reg.id
        = s.regs.map Reg.id := map_key_updBy (fun x _ => rfl)
    simpa [hmk] using hwf.regIdNodup
  · intro y hy
    rcases mem_of_mem_updBy hy with ⟨x, hx, rfl⟩
    rcases hwf.regEvent x hx with ⟨e1, he1, heq1⟩
    refine ⟨e1, he1, ?_⟩
    by_cases hk : x.id = rid
    · rw [if_pos (by simp [hk])]
      exact heq1
    · rw [if_neg (by simp [hk])]
      exact heq1
  · intro e he hel
    exact (hwf.countEq e he hel).trans (hcong (activeFor e.id) (fun x => rfl)).symm
  · exact hwf.countLe
  · intro e he hcap
    exact (hcong (confirmedFor e.id) (fun x => rfl)).le.trans (hwf.capSafe e he hcap)
  · intro r1 hr1 e he hid hpay hst
    rcases mem_of_mem_updBy hr1 with ⟨x, hx, rfl⟩
    by_cases hk : x.id = rid
    · have hxr : x = r := key_inj_of_nodup hwf.regIdNodup hx hrmem (by rw [hk, hrid])
      subst hxr
      rw [if_pos (by simp [hk])] at hid hst ⊢
      exact hgate e he (by simpa using hid) hpay (by simpa using hst)
    · rw [if_neg (by simp [hk])] at hid hst ⊢
      exact hwf.payGate x hx e he hid hpay hst
  · intro r1 hr1 t ht
    rcases mem_of_mem_updBy hr1 with ⟨x, hx, rfl⟩
    rw [keyTicket x] at ht
    exact hwf.tidLt x hx t ht
  · intro r1 hr1 r2 hr2 t1 t2 ht1 ht2 htid
    rcases mem_of_mem_updBy hr1 with ⟨x1, hx1, rfl⟩
    rcases mem_of_mem_updBy hr2 with ⟨x2, hx2, rfl⟩
    rw [keyTicket x1] at ht1
    rw [keyTicket x2] at ht2
    rw [keyId x1, keyId x2]
    exact hwf.tidUnique x1 hx1 x2 hx2 t1 t2 ht1 ht2 htid
  · intro r1 hr1 e he hid hopen2
    rcases mem_of_mem_updBy hr1 with ⟨x, hx, rfl⟩
    by_cases hk : x.id = rid
    · rw [if_pos (by simp [hk])] at hid hopen2
      exact hwf.openLive x hx e he hid hopen2
    · rw [if_neg (by simp [hk])] at hid hopen2
      exact hwf.openLive x hx e he hid hopen2

theorem WF_submitProof {rid : Nat} {s s2 : Sys}
    (hwf : WF s) (h : submitProof rid s = .ok s2) : WF s2 := by
  rcases submitProof_ok h with ⟨r, e, hfr, hfe, hreq, hpend, hcan, rfl⟩
  refine WF_updProof hwf hfr ?_
  intro e1 he1 heq1 hpay1 hst
  rcases hst with h1 | h1 <;> rw [hpend] at h1 <;> cases h1

theorem WF_rejectProof {rid : Nat} {reason : String} {s s2 : Sys}
    (hwf : WF s) (h : rejectProof rid reason s = .ok s2) : WF s2 := by
  rcases rejectProof_ok h with ⟨r, p, hfr, hpp, hpend, rfl⟩
  refine WF_updProof hwf hfr ?_
  intro e he heq hpay hst
  obtain ⟨hrmem, hrid⟩ := findReg_mem hfr
  have happ := hwf.payGate r hrmem e he heq hpay hst
  unfold proofApproved at happ
  rw [hpp] at happ
  simp at happ
  rw [happ] at hpend
  cases hpend

theorem WF_confirmRegistration {rid : Nat} {s s2 : Sys}
    (hwf : WF s) (h : confirmRegistration rid s = .ok s2) : WF s2 := by
  rcases confirmRegistration_ok h with ⟨r, e, hfr, hfe, hterm, hpend, hgate, rfl⟩
  obtain ⟨hrmem, hrid⟩ := findReg_mem hfr
  obtain ⟨hemem, heid⟩ := findEvent_mem hfe
  have helive : e.state ≠ EventState.cancelled := fun hc => hterm (Or.inr hc)
  have happr : e.requiresPayment = true → proofApproved r = true := by
    intro hpay
    cases hb : proofApproved r
    · exact absurd ⟨hpay, hb⟩ hgate
    · rfl
  refine ⟨?_, ?_, ?_, ?_, ?_, ?_, ?_, ?_, ?_, ?_, ?_, ?_⟩
  · exact hwf.eventIdLt
  · exact hwf.eventIdNodup
  · intro y hy
    rcases mem_of_mem_updBy hy with ⟨x, hx, rfl⟩
    by_cases hk : x.id = rid
    · rw [if_pos (by simp [hk])]
      exact hwf.regIdLt x hx
    · rw [if_neg (by simp [hk])]
      exact hwf.regIdLt x hx
  · have hmk : (updBy Reg.id rid
        (fun r0 => { r0 with
          state := RegState.confirmed,
          ticket := some ⟨s.nextTicketId, false, none⟩ }) s.regs).map Reg.id
        = s.regs.map Reg.id := map_key_updBy (fun x _ => rfl)
    simpa [hmk] using hwf.regIdNodup
  · intro y hy
    rcases mem_of_mem_updBy hy with ⟨x, hx, rfl⟩
    rcases hwf.regEvent x hx with ⟨e1, he1, heq1⟩
    refine ⟨e1, he1, ?_⟩
    by_cases hk : x.id = rid
    · rw [if_pos (by simp [hk])]
      exact heq1
    · rw [if_neg (by simp [hk])]
      exact heq1
  · intro e1 he1 hel
    have heq := countP_updBy Reg.id rid
      (fun r0 => { r0 with
        state := RegState.confirmed,
        ticket := some ⟨s.nextTicketId, false, none⟩ })
      (activeFor e1.id) hwf.regIdNodup r hrmem hrid
    have hsame : activeFor e1.id
        ({ r with
          state := RegState.confirmed,
          ticket := some ⟨s.nextTicketId, false, none⟩ } : Reg) = activeFor e1.id r := by
      simp [activeFor, regActive, hpend]
    simp only [hsame] at heq
    have hc := hwf.countEq e1 he1 hel
    show e1.count = List.countP (activeFor e1.id)
      (updBy Reg.id rid
        (fun r0 => { r0 with
          state := RegState.confirmed,
          ticket := some ⟨s.nextTicketId, false, none⟩ }) s.regs)
    omega
  · exact hwf.countLe
  · intro e1 he1 hcap
    have heq := countP_updBy Reg.id rid
      (fun r0 => { r0 with
        state := RegState.confirmed,
        ticket := some ⟨s.nextTicketId, false, none⟩ })
      (confirmedFor e1.id) hwf.regIdNodup r hrmem hrid
    have hconfr : confirmedFor e1.id r = false := by
      simp [confirmedFor, hpend]
    show List.countP (confirmedFor e1.id)
      (updBy Reg.id rid
        (fun r0 => { r0 with
          state := RegState.confirmed,
          ticket := some ⟨s.nextTicketId, false, none⟩ }) s.regs) ≤ e1.capacity
    by_cases hcase : r.eventId = e1.id
    · have hee : e1 = e :=
        key_inj_of_nodup hwf.eventIdNodup he1 hemem (by rw [← hcase, heid])
      subst hee
      have hconfrf : confirmedFor e1.id
          ({ r with
            state := RegState.confirmed,
            ticket := some ⟨s.nextTicketId, false, none⟩ } : Reg) = true := by
        simp [confirmedFor, hcase]
      simp [hconfrf, hconfr] at heq
      have hlt : List.countP (confirmedFor e1.id) s.regs <
          List.countP (activeFor e1.id) s.regs := by
        refine countP_lt_of_mem ?_ r hrmem ?_ hconfr
        · intro x hx hc
          simp only [confirmedFor, decide_eq_true_eq] at hc
          simp only [activeFor, regActive, Bool.and_eq_true, decide_eq_true_eq]
          refine ⟨hc.1, ?_⟩
          rcases hc.2 with h2 | h2 <;> rw [h2] <;> intro hcc <;> cases hcc
        · simp [activeFor, regActive, hpend, hcase]
      have hc := hwf.countEq e1 hemem helive
      have hle := hwf.countLe e1 hemem hcap helive
      omega
    · have hconfrf : confirmedFor e1.id
          ({ r with
            state := RegState.confirmed,
            ticket := some ⟨s.nextTicketId, false, none⟩ } : Reg) = false := by
        simp [confirmedFor, hcase]
      simp [hconfrf, hconfr] at heq
      have := hwf.capSafe e1 he1 hcap
      omega
  · intro r1 hr1 e1 he1 hid hpay hst
    rcases mem_of_mem_updBy hr1 with ⟨x, hx, rfl⟩
    by_cases hk : x.id = rid
    · have hxr : x = r := key_inj_of_nodup hwf.regIdNodup hx hrmem (by rw [hk, hrid])
      subst hxr
      rw [if_pos (by simp [hk])] at hid hst ⊢
      have hid2 : e1.id = x.eventId := by simpa using hid
      have he1e : e1 = e := key_inj_of_nodup hwf.eventIdNodup he1 hemem (hid2.trans heid.symm)
      subst he1e
      exact happr hpay
    · rw [if_neg (by simp [hk])] at hid hst ⊢
      exact hwf.payGate x hx e1 he1 hid hpay hst
  · intro r1 hr1 t ht
    rcases mem_of_mem_updBy hr1 with ⟨x, hx, rfl⟩
    by_cases hk : x.id = rid
    · rw [if_pos (by simp [hk])] at ht
      cases ht
      exact Nat.lt_succ_self _
    · rw [if_neg (by simp [hk])] at ht
      exact Nat.lt_succ_of_lt (hwf.tidLt x hx t ht)
  · intro r1 hr1 r2 hr2 t1 t2 ht1 ht2 htid
    rcases mem_of_mem_updBy hr1 with ⟨x1, hx1, rfl⟩
    rcases mem_of_mem_updBy hr2 with ⟨x2, hx2, rfl⟩
    by_cases hk1 : x1.id = rid
    · by_cases hk2 : x2.id = rid
      · rw [if_pos (by simp [hk1]), if_pos (by simp [hk2])]
        show x1.id = x2.id
        rw [hk1, hk2]
      · rw [if_pos (by simp [hk1])] at ht1
        rw [if_neg (by simp [hk2])] at ht2
        cases ht1
        have := hwf.tidLt x2 hx2 t2 ht2
        simp only at htid
        omega
    · by_cases hk2 : x2.id = rid
      · rw [if_neg (by simp [hk1])] at ht1
        rw [if_pos (by simp [hk2])] at ht2
        cases ht2
        have := hwf.tidLt x1 hx1 t1 ht1
        simp only at htid
        omega
      · rw [if_neg (by simp [hk1])] at ht1
        rw [if_neg (by simp [hk2])] at ht2
        rw [if_neg (by simp [hk1]), if_neg (by simp [hk2])]
        exact hwf.tidUnique x1 hx1 x2 hx2 t1 t2 ht1 ht2 htid
  · intro r1 hr1 y hy hid hopen2
    rcases mem_of_mem_updBy hr1 with ⟨x, hx, rfl⟩
    by_cases hk : x.id = rid
    · have hxr : x = r := key_inj_of_nodup hwf.regIdNodup hx hrmem (by rw [hk, hrid])
      subst hxr
      rw [if_pos (by simp [hk])] at hid
      have hid2 : y.id = x.eventId := by simpa using hid
      have hye : y = e := key_inj_of_nodup hwf.eventIdNodup hy hemem (hid2.trans heid.symm)
      subst hye
      exact fun hc => hterm (Or.inr hc)
    · rw [if_neg (by simp [hk])] at hid hopen2
      exact hwf.openLive x hx y hy hid hopen2

theorem WF_approveProof {rid : Nat} {s s2 : Sys}
    (hwf : WF s) (h : approveProof rid s = .ok s2) : WF s2 := by
  rcases approveProof_ok h with ⟨r, p, hfr, hpp, hpend, hconf⟩
  have hwf2 : WF { s with
      regs := updBy Reg.id rid
        (fun r0 => { r0 with payProof := some ⟨.approved, none⟩ }) s.regs } := by
    refine WF_updProof hwf hfr ?_
    intro e he heq hpay hst
    rfl
  exact WF_confirmRegistration hwf2 hconf

theorem WF_verifyTicket {tid now : Nat} {s s2 : Sys}
    (hwf : WF s) (h : verifyTicket tid now s = .ok s2) : WF s2 := by
  rcases verifyTicket_ok h with ⟨r, hfr, hconf, rfl⟩
  have hrmem : r ∈ s.regs := List.mem_of_find?_eq_some hfr
  have hmt : ∀ (x : Reg) (t : Ticket),
      (if Reg.id x == r.id then
        { x with state := RegState.checkedIn, ticket := markUsed now x.ticket }
      else x).ticket = some t → ∃ t0, x.ticket = some t0 ∧ t0.tid = t.tid := by
    intro x t ht
    by_cases hk : x.id = r.id
    · rw [if_pos (by simp [hk])] at ht
      cases hxt : x.ticket with
      | none =>
        exfalso
        have : markUsed now x.ticket = some t := ht
        rw [hxt] at this
        cases this
      | some t0 =>
        have h2 : markUsed now x.ticket = some t := ht
        rw [hxt] at h2
        simp only [markUsed] at h2
        cases h2
        exact ⟨t0, rfl, rfl⟩
    · rw [if_neg (by simp [hk])] at ht
      exact ⟨t, ht, rfl⟩
  have keyId : ∀ x : Reg, (if Reg.id x == r.id then
      { x with state := RegState.checkedIn, ticket := markUsed now x.ticket }
    else x).id = x.id := by
    intro x
    by_cases hk : x.id = r.id
    · simp [hk]
    · simp [hk]
  refine ⟨?_, ?_, ?_, ?_, ?_, ?_, ?_, ?_, ?_, ?_, ?_, ?_⟩
  · exact hwf.eventIdLt
  · exact hwf.eventIdNodup
  · intro y hy
    rcases mem_of_mem_updBy hy with ⟨x, hx, rfl⟩
    rw [keyId x]
    exact hwf.regIdLt x hx
  · have hmk : (updBy Reg.id r.id
        (fun r0 => { r0 with
          state := RegState.checkedIn, ticket := markUsed now r0.ticket }) s.regs).map Reg.id
        = s.regs.map Reg.id := map_key_updBy (fun x _ => rfl)
    simpa [hmk] using hwf.regIdNodup
  · intro y hy
    rcases mem_of_mem_updBy hy with ⟨x, hx, rfl⟩
    rcases hwf.regEvent x hx with ⟨e1, he1, heq1⟩
    refine ⟨e1, he1, ?_⟩
    by_cases hk : x.id = r.id
    · rw [if_pos (by simp [hk])]
      exact heq1
    · rw [if_neg (by simp [hk])]
      exact heq1
  · intro e1 he1 hel
    have heq := countP_updBy Reg.id r.id
      (fun r0 => { r0 with state := RegState.checkedIn, ticket := markUsed now r0.ticket })
      (activeFor e1.id) hwf.regIdNodup r hrmem rfl
    have hsame : activeFor e1.id
        ({ r with state := RegState.checkedIn, ticket := markUsed now r.ticket } : Reg)
          = activeFor e1.id r := by
      simp [activeFor, regActive, hconf]
    simp only [hsame] at heq
    have hc := hwf.countEq e1 he1 hel
    show e1.count = List.countP (activeFor e1.id)
      (updBy Reg.id r.id
        (fun r0 => { r0 with state := RegState.checkedIn, ticket := markUsed now r0.ticket })
        s.regs)
    omega
  · exact hwf.countLe
  · intro e1 he1 hcap
    have heq := countP_updBy Reg.id r.id
      (fun r0 => { r0 with state := RegState.checkedIn, ticket := markUsed now r0.ticket })
      (confirmedFor e1.id) hwf.regIdNodup r hrmem rfl
    have hsame : confirmedFor e1.id
        ({ r with state := RegState.checkedIn, ticket := markUsed now r.ticket } : Reg)
          = confirmedFor e1.id r := by
      simp [confirmedFor, hconf]
    simp only [hsame] at heq
    have := hwf.capSafe e1 he1 hcap
    show List.countP (confirmedFor e1.id)
      (updBy Reg.id r.id
        (fun r0 => { r0 with state := RegState.checkedIn, ticket := markUsed now r0.ticket })
        s.regs) ≤ e1.capacity
    omega
  · intro r1 hr1 e1 he1 hid hpay hst
    rcases mem_of_mem_updBy hr1 with ⟨x, hx, rfl⟩
    by_cases hk : x.id = r.id
    · have hxr : x = r := key_inj_of_nodup hwf.regIdNodup hx hrmem hk
      subst hxr
      rw [if_pos (by simp [hk])] at hid ⊢
      exact hwf.payGate x hx e1 he1 (by simpa using hid) hpay (Or.inl hconf)
    · rw [if_neg (by simp [hk])] at hid hst ⊢
      exact hwf.payGate x hx e1 he1 hid hpay hst
  · intro r1 hr1 t ht
    rcases mem_of_mem_updBy hr1 with ⟨x, hx, rfl⟩
    rcases hmt x t ht with ⟨t0, hxt0, htid0⟩
    have := hwf.tidLt x hx t0 hxt0
    show t.tid < s.nextTicketId
    omega
  · intro r1 hr1 r2 hr2 t1 t2 ht1 ht2 htid
    rcases mem_of_mem_updBy hr1 with ⟨x1, hx1, rfl⟩
    rcases mem_of_mem_updBy hr2 with ⟨x2, hx2, rfl⟩
    rcases hmt x1 t1 ht1 with ⟨t01, hxt1, htid1⟩
    rcases hmt x2 t2 ht2 with ⟨t02, hxt2, htid2⟩
    rw [keyId x1, keyId x2]
    exact hwf.tidUnique x1 hx1 x2 hx2 t01 t02 hxt1 hxt2 (by omega)
  · intro r1 hr1 y hy hid hopen2
    rcases mem_of_mem_updBy hr1 with ⟨x, hx, rfl⟩
    by_cases hk : x.id = r.id
    · rw [if_pos (by simp [hk])] at hid hopen2
      simp [regOpen] at hopen2
    · rw [if_neg (by simp [hk])] at hid hopen2
      exact hwf.openLive x hx y hy hid hopen2

theorem WF_cancelRegistration {rid : Nat} {s s2 : Sys}
    (hwf : WF s) (h : cancelRegistration rid s = .ok s2) : WF s2 := by
  rcases cancelRegistration_ok h with ⟨r, e, hfr, hfe, hcomp, hopen, rfl⟩
  obtain ⟨hrmem, hrid⟩ := findReg_mem hfr
  obtain ⟨hemem, heid⟩ := findEvent_mem hfe
  have keyTicket : ∀ y : Reg,
      (if Reg.id y == rid then { y with state := RegState.cancelled } else y).ticket
        = y.ticket := by
    intro y
    by_cases hk : y.id = rid
    · simp [hk]
    · simp [hk]
  have keyId : ∀ y : Reg,
      (if Reg.id y == rid then { y with state := RegState.cancelled } else y).id = y.id := by
    intro y
    by_cases hk : y.id = rid
    · simp [hk]
    · simp [hk]
  have keyEvId : ∀ y : Reg,
      (if Reg.id y == rid then { y with state := RegState.cancelled } else y).eventId
        = y.eventId := by
    intro y
    by_cases hk : y.id = rid
    · simp [hk]
    · simp [hk]
  have hactr : regActive r = true := by
    rcases hopen with h1 | h1 <;> simp [regActive, h1]
  refine ⟨?_, ?_, ?_, ?_, ?_, ?_, ?_, ?_, ?_, ?_, ?_, ?_⟩
  · intro y hy
    rcases mem_of_mem_updBy hy with ⟨x, hx, rfl⟩
    by_cases hk : x.id = r.eventId
    · rw [if_pos (by simp [hk])]
      exact hwf.eventIdLt x hx
    · rw [if_neg (by simp [hk])]
      exact hwf.eventIdLt x hx
  · have hmk : (updBy Event.id r.eventId releaseSlot s.events).map Event.id
        = s.events.map Event.id := map_key_updBy (fun x _ => rfl)
    simpa [hmk] using hwf.eventIdNodup
  · intro y hy
    rcases mem_of_mem_updBy hy with ⟨x, hx, rfl⟩
    rw [keyId x]
    exact hwf.regIdLt x hx
  · have hmk : (updBy Reg.id rid
        (fun r0 => { r0 with state := RegState.cancelled }) s.regs).map Reg.id
        = s.regs.map Reg.id := map_key_updBy (fun x _ => rfl)
    simpa [hmk] using hwf.regIdNodup
  · intro y hy
    rcases mem_of_mem_updBy hy with ⟨x, hx, rfl⟩
    rcases hwf.regEvent x hx with ⟨e1, he1, heq1⟩
    refine ⟨if Event.id e1 == r.eventId then releaseSlot e1 else e1,
      List.mem_map_of_mem _ he1, ?_⟩
    rw [keyEvId x]
    by_cases hk1 : e1.id = r.eventId
    · have hc1 : (Event.id e1 == r.eventId) = true := by simp [hk1]
      rw [if_pos hc1]
      exact heq1
    · have hc1 : ¬((Event.id e1 == r.eventId) = true) := by simp [hk1]
      rw [if_neg hc1]
      exact heq1
  · intro y hy hylive
    rcases mem_of_mem_updBy hy with ⟨z, hz, rfl⟩
    have heq := countP_updBy Reg.id rid (fun r0 => { r0 with state := RegState.cancelled })
      (activeFor z.id) hwf.regIdNodup r hrmem hrid
    by_cases hk : z.id = r.eventId
    · have hze : z = e := key_inj_of_nodup hwf.eventIdNodup hz hemem (by rw [hk, heid])
      subst hze
      rw [if_pos (by simp [hk])] at hylive ⊢
      have hzlive : z.state ≠ EventState.cancelled := by
        simpa [releaseSlot] using hylive
      have hc := hwf.countEq z hz hzlive
      have h1 : activeFor z.id r = true := by
        simp [activeFor, hactr, hk]
      have h2 : activeFor z.id ({ r with state := RegState.cancelled } : Reg) = false := by
        simp [activeFor, regActive]
      simp [h1, h2] at heq
      show z.count - 1 = List.countP (activeFor z.id)
        (updBy Reg.id rid (fun r0 => { r0 with state := RegState.cancelled }) s.regs)
      omega
    · rw [if_neg (by simp [hk])] at hylive ⊢
      have hne : r.eventId ≠ z.id := fun hc => hk hc.symm
      have h1 : activeFor z.id r = false := by
        simp [activeFor, hne]
      have h2 : activeFor z.id ({ r with state := RegState.cancelled } : Reg) = false := by
        simp [activeFor, hne]
      simp [h1, h2] at heq
      have hc := hwf.countEq z hz hylive
      show z.count = List.countP (activeFor z.id)
        (updBy Reg.id rid (fun r0 => { r0 with state := RegState.cancelled }) s.regs)
      omega
  · intro y hy hcap hylive
    rcases mem_of_mem_updBy hy with ⟨z, hz, rfl⟩
    by_cases hk : z.id = r.eventId
    · rw [if_pos (by simp [hk])] at hcap hylive ⊢
      have hzlive : z.state ≠ EventState.cancelled := by
        simpa [releaseSlot] using hylive
      have := hwf.countLe z hz (by simpa [releaseSlot] using hcap) hzlive
      show z.count - 1 ≤ z.capacity
      omega
    · rw [if_neg (by simp [hk])] at hcap hylive ⊢
      exact hwf.countLe z hz hcap hylive
  · intro y hy hcap
    rcases mem_of_mem_updBy hy with ⟨z, hz, rfl⟩
    have heq := countP_updBy Reg.id rid (fun r0 => { r0 with state := RegState.cancelled })
      (confirmedFor z.id) hwf.regIdNodup r hrmem hrid
    have h2 : confirmedFor z.id ({ r with state := RegState.cancelled } : Reg) = false := by
      simp [confirmedFor]
    by_cases hk : z.id = r.eventId
    · rw [if_pos (by simp [hk])] at hcap ⊢
      have := hwf.capSafe z hz (by simpa [releaseSlot] using hcap)
      show List.countP (confirmedFor z.id)
        (updBy Reg.id rid (fun r0 => { r0 with state := RegState.cancelled }) s.regs)
          ≤ (releaseSlot z).capacity
      show List.countP (confirmedFor z.id)
        (updBy Reg.id rid (fun r0 => { r0 with state := RegState.cancelled }) s.regs)
          ≤ z.capacity
      simp [h2] at heq
      omega
    · rw [if_neg (by simp [hk])] at hcap ⊢
      have := hwf.capSafe z hz hcap
      show List.countP (confirmedFor z.id)
        (updBy Reg.id rid (fun r0 => { r0 with state := RegState.cancelled }) s.regs)
          ≤ z.capacity
      simp [h2] at heq
      omega
  · intro r1 hr1 y hy hid hpay hst
    rcases mem_of_mem_updBy hr1 with ⟨x, hx, rfl⟩
    rcases mem_of_mem_updBy hy with ⟨z, hz, rfl⟩
    by_cases hk : x.id = rid
    · have hcx : (x.id == rid) = true := by simp [hk]
      rw [if_pos hcx] at hst
      rcases hst with h2 | h2 <;> cases h2
    · have hcx : ¬((x.id == rid) = true) := by simp [hk]
      rw [if_neg hcx] at hst hid ⊢
      by_cases hkz : z.id = r.eventId
      · have hcz : (z.id == r.eventId) = true := by simp [hkz]
        rw [if_pos hcz] at hid hpay
        exact hwf.payGate x hx z hz (by simpa [releaseSlot] using hid)
          (by simpa [releaseSlot] using hpay) hst
      · have hcz : ¬((z.id == r.eventId) = true) := by simp [hkz]
        rw [if_neg hcz] at hid hpay
        exact hwf.payGate x hx z hz hid hpay hst
  · intro r1 hr1 t ht
    rcases mem_of_mem_updBy hr1 with ⟨x, hx, rfl⟩
    rw [keyTicket x] at ht
    exact hwf.tidLt x hx t ht
  · intro r1 hr1 r2 hr2 t1 t2 ht1 ht2 htid
    rcases mem_of_mem_updBy hr1 with ⟨x1, hx1, rfl⟩
    rcases mem_of_mem_updBy hr2 with ⟨x2, hx2, rfl⟩
    rw [keyTicket x1] at ht1
    rw [keyTicket x2] at ht2
    rw [keyId x1, keyId x2]
    exact hwf.tidUnique x1 hx1 x2 hx2 t1 t2 ht1 ht2 htid
  · intro r1 hr1 y hy hid hopen2
    rcases mem_of_mem_updBy hr1 with ⟨x, hx, rfl⟩
    rcases mem_of_mem_updBy hy with ⟨z, hz, rfl⟩
    by_cases hk : x.id = rid
    · have hcx : (x.id == rid) = true := by simp [hk]
      rw [if_pos hcx] at hopen2
      simp [regOpen] at hopen2
    · have hcx : ¬((x.id == rid) = true) := by simp [hk]
      rw [if_neg hcx] at hid hopen2
      by_cases hkz : z.id = r.eventId
      · have hcz : (z.id == r.eventId) = true := by simp [hkz]
        rw [if_pos hcz] at hid ⊢
        show z.state ≠ EventState.cancelled
        exact hwf.openLive x hx z hz (by simpa [releaseSlot] using hid) hopen2
      · have hcz : ¬((z.id == r.eventId) = true) := by simp [hkz]
        rw [if_neg hcz] at hid ⊢
        exact hwf.openLive x hx z hz hid hopen2

theorem WF_cancelEvent {eid : Nat} {s s2 : Sys}
    (hwf : WF s) (h : cancelEvent eid s = .ok s2) : WF s2 := by
  rcases cancelEvent_ok h with ⟨e, hfe, hdp, rfl⟩
  obtain ⟨hemem, heid⟩ := findEvent_mem hfe
  have gId : ∀ x : Reg,
      (if (x.eventId == eid && regOpen x) = true then
        { x with state := RegState.cancelled } else x).id = x.id := by
    intro x
    by_cases hc : (x.eventId == eid && regOpen x) = true
    · rw [if_pos hc]
    · rw [if_neg hc]
  have gEvId : ∀ x : Reg,
      (if (x.eventId == eid && regOpen x) = true then
        { x with state := RegState.cancelled } else x).eventId = x.eventId := by
    intro x
    by_cases hc : (x.eventId == eid && regOpen x) = true
    · rw [if_pos hc]
    · rw [if_neg hc]
  have gTicket : ∀ (x : Reg) (t : Ticket),
      (if (x.eventId == eid && regOpen x) = true then
        { x with state := RegState.cancelled } else x).ticket = some t →
      x.ticket = some t := by
    intro x t ht
    by_cases hc : (x.eventId == eid && regOpen x) = true
    · rw [if_pos hc] at ht
      exact ht
    · rw [if_neg hc] at ht
      exact ht
  refine ⟨?_, ?_, ?_, ?_, ?_, ?_, ?_, ?_, ?_, ?_, ?_, ?_⟩
  · intro y hy
    rcases mem_of_mem_updBy hy with ⟨z, hz, rfl⟩
    by_cases hk : z.id = eid
    · rw [if_pos (by simp [hk])]
      exact hwf.eventIdLt z hz
    · rw [if_neg (by simp [hk])]
      exact hwf.eventIdLt z hz
  · have hmk : (updBy Event.id eid
        (fun e0 => { e0 with state := EventState.cancelled, count := 0 }) s.events).map Event.id
        = s.events.map Event.id := map_key_updBy (fun x _ => rfl)
    simpa [hmk] using hwf.eventIdNodup
  · intro y hy
    rcases List.mem_map.mp hy with ⟨x, hx, rfl⟩
    rw [gId x]
    exact hwf.regIdLt x hx
  · have hmk : ((s.regs.map (fun r =>
        if r.eventId == eid && regOpen r then { r with state := RegState.cancelled } else r)).map
          Reg.id) = s.regs.map Reg.id := by
      rw [List.map_map]
      refine List.map_congr_left (fun x hx => ?_)
      simpa using gId x
    have h2 : ((s.regs.map (fun r =>
        if r.eventId == eid && regOpen r then { r with state := RegState.cancelled } else r)).map
          Reg.id).Nodup := by
      rw [hmk]
      exact hwf.regIdNodup
    exact h2
  · intro y hy
    rcases List.mem_map.mp hy with ⟨x, hx, rfl⟩
    rcases hwf.regEvent x hx with ⟨e1, he1, heq1⟩
    refine ⟨if Event.id e1 == eid then
        { e1 with state := EventState.cancelled, count := 0 } else e1,
      List.mem_map_of_mem _ he1, ?_⟩
    rw [gEvId x]
    by_cases hk1 : e1.id = eid
    · have hc1 : (Event.id e1 == eid) = true := by simp [hk1]
      rw [if_pos hc1]
      exact heq1
    · have hc1 : ¬((Event.id e1 == eid) = true) := by simp [hk1]
      rw [if_neg hc1]
      exact heq1
  · intro y hy hylive
    rcases mem_of_mem_updBy hy with ⟨z, hz, rfl⟩
    by_cases hk : z.id = eid
    · have hc1 : (Event.id z == eid) = true := by simp [hk]
      rw [if_pos hc1] at hylive
      simp at hylive
    · have hc1 : ¬((Event.id z == eid) = true) := by simp [hk]
      rw [if_neg hc1] at hylive ⊢
      have hcong : List.countP (activeFor z.id)
          (s.regs.map (fun r =>
            if r.eventId == eid && regOpen r then { r with state := RegState.cancelled } else r))
            = List.countP (activeFor z.id) s.regs := by
        rw [List.countP_map]
        refine List.countP_congr (fun x hx => ?_)
        simp only [Function.comp_apply]
        by_cases hc : (x.eventId == eid && regOpen x) = true
        · rw [if_pos hc]
          have hxe : x.eventId = eid := by
            have h3 := (Bool.and_eq_true _ _).mp hc
            simpa using h3.1
          have hne : x.eventId ≠ z.id := by
            rw [hxe]
            exact fun hcc => hk hcc.symm
          have h4 : activeFor z.id ({ x with state := RegState.cancelled } : Reg) = false := by
            simp [activeFor, hne]
          have h5 : activeFor z.id x = false := by
            simp [activeFor, hne]
          rw [h4, h5]
        · rw [if_neg hc]
      show z.count = List.countP (activeFor z.id)
        (s.regs.map (fun r =>
          if r.eventId == eid && regOpen r then { r with state := RegState.cancelled } else r))
      rw [hcong]
      exact hwf.countEq z hz hylive
  · intro y hy hcap hylive
    rcases mem_of_mem_updBy hy with ⟨z, hz, rfl⟩
    by_cases hk : z.id = eid
    · have hc1 : (Event.id z == eid) = true := by simp [hk]
      rw [if_pos hc1] at hylive
      simp at hylive
    · have hc1 : ¬((Event.id z == eid) = true) := by simp [hk]
      rw [if_neg hc1] at hcap hylive ⊢
      exact hwf.countLe z hz hcap hylive
  · intro y hy hcap
    rcases mem_of_mem_updBy hy with ⟨z, hz, rfl⟩
    have hle : List.countP (confirmedFor z.id)
        (s.regs.map (fun r =>
          if r.eventId == eid && regOpen r then { r with state := RegState.cancelled } else r))
          ≤ List.countP (confirmedFor z.id) s.regs := by
      refine countP_map_le (fun x hx hpx => ?_)
      by_cases hc : (x.eventId == eid && regOpen x) = true
      · rw [if_pos hc] at hpx
        simp [confirmedFor] at hpx
      · rw [if_neg hc] at hpx
        exact hpx
    by_cases hk : z.id = eid
    · have hc1 : (Event.id z == eid) = true := by simp [hk]
      rw [if_pos hc1] at hcap ⊢
      show List.countP (confirmedFor z.id)
        (s.regs.map (fun r =>
          if r.eventId == eid && regOpen r then { r with state := RegState.cancelled } else r))
          ≤ z.capacity
      exact hle.trans (hwf.capSafe z hz (by simpa using hcap))
    · have hc1 : ¬((Event.id z == eid) = true) := by simp [hk]
      rw [if_neg hc1] at hcap ⊢
      show List.countP (confirmedFor z.id)
        (s.regs.map (fun r =>
          if r.eventId == eid && regOpen r then { r with state := RegState.cancelled } else r))
          ≤ z.capacity
      exact hle.trans (hwf.capSafe z hz hcap)
  · intro r1 hr1 y hy hid hpay hst
    rcases List.mem_map.mp hr1 with ⟨x, hx, rfl⟩
    rcases mem_of_mem_updBy hy with ⟨z, hz, rfl⟩
    by_cases hc : (x.eventId == eid && regOpen x) = true
    · rw [if_pos hc] at hst
      rcases hst with h2 | h2 <;> cases h2
    · rw [if_neg hc] at hst hid ⊢
      by_cases hkz : z.id = eid
      · have hcz : (Event.id z == eid) = true := by simp [hkz]
        rw [if_pos hcz] at hid hpay
        exact hwf.payGate x hx z hz (by simpa using hid) (by simpa using hpay) hst
      · have hcz : ¬((Event.id z == eid) = true) := by simp [hkz]
        rw [if_neg hcz] at hid hpay
        exact hwf.payGate x hx z hz hid hpay hst
  · intro r1 hr1 t ht
    rcases List.mem_map.mp hr1 with ⟨x, hx, rfl⟩
    exact hwf.tidLt x hx t (gTicket x t ht)
  · intro r1 hr1 r2 hr2 t1 t2 ht1 ht2 htid
    rcases List.mem_map.mp hr1 with ⟨x1, hx1, rfl⟩
    rcases List.mem_map.mp hr2 with ⟨x2, hx2, rfl⟩
    rw [gId x1, gId x2]
    exact hwf.tidUnique x1 hx1 x2 hx2 t1 t2 (gTicket x1 t1 ht1) (gTicket x2 t2 ht2) htid
  · intro r1 hr1 y hy hid hopen2
    rcases List.mem_map.mp hr1 with ⟨x, hx, rfl⟩
    rcases mem_of_mem_updBy hy with ⟨z, hz, rfl⟩
    by_cases hc : (x.eventId == eid && regOpen x) = true
    · rw [if_pos hc] at hopen2
      simp [regOpen] at hopen2
    · rw [if_neg hc] at hid hopen2
      by_cases hkz : z.id = eid
      · exfalso
        have hcz : (Event.id z == eid) = true := by simp [hkz]
        rw [if_pos hcz] at hid
        have hxe : x.eventId = eid := by
          have hzx : z.id = x.eventId := by simpa using hid
          rw [← hzx, hkz]
        apply hc
        simp [hxe, hopen2]
      · have hcz : ¬((Event.id z == eid) = true) := by simp [hkz]
        rw [if_neg hcz] at hid ⊢
        exact hwf.openLive x hx z hz hid hopen2

theorem WF_exec {op : Op} {s s2 : Sys} (hwf : WF s) (h : exec op s = .ok s2) : WF s2 := by
  cases op with
  | createEvent c p oa ca => exact WF_createEvent hwf h
  | publishEvent eid => exact WF_publishEvent hwf h
  | closeEvent eid => exact WF_closeEvent hwf h
  | completeEvent eid => exact WF_completeEvent hwf h
  | cancelEvent eid => exact WF_cancelEvent hwf h
  | registerForEvent eid pid now => exact WF_registerForEvent hwf h
  | submitProof rid => exact WF_submitProof hwf h
  | approveProof rid => exact WF_approveProof hwf h
  | rejectProof rid reason => exact WF_rejectProof hwf h
  | confirmRegistration rid => exact WF_confirmRegistration hwf h
  | verifyTicket tid now => exact WF_verifyTicket hwf h
  | cancelRegistration rid => exact WF_cancelRegistration hwf h

theorem WF_applyOp {op : Op} {s : Sys} (hwf : WF s) : WF (applyOp op s) := by
  unfold applyOp
  cases hexec : exec op s with
  | ok s2 => exact WF_exec hwf hexec
  | error e => exact hwf

theorem WF_run {s : Sys} (ops : List Op) (hwf : WF s) : WF (run s ops) := by
  induction ops generalizing s with
  | nil => exact hwf
  | cons op ops ih => exact ih (WF_applyOp hwf)

theorem WF_sys0 : WF sys0 := by
  refine ⟨?_, List.nodup_nil, ?_, List.nodup_nil, ?_, ?_, ?_, ?_, ?_, ?_, ?_, ?_⟩ <;>
    intro x hx <;> cases hx

theorem WF_reachable {s : Sys} (h : Reachable s) : WF s := by
  rcases h with ⟨ops, rfl⟩
  exact WF_run ops WF_sys0

theorem exec_nextTicketId {op : Op} {s s2 : Sys} (h : exec op s = .ok s2) :
    s.nextTicketId ≤ s2.nextTicketId := by
  cases op with
  | createEvent c p oa ca =>
    rw [createEvent_ok h]
  | publishEvent eid =>
    rcases publishEvent_ok h with ⟨e, _, _, rfl⟩
    exact Nat.le_refl _
  | closeEvent eid =>
    rcases closeEvent_ok h with ⟨e, _, _, rfl⟩
    exact Nat.le_refl _
  | completeEvent eid =>
    rcases completeEvent_ok h with ⟨e, _, _, rfl⟩
    exact Nat.le_refl _
  | cancelEvent eid =>
    rcases cancelEvent_ok h with ⟨e, _, _, rfl⟩
    exact Nat.le_refl _
  | registerForEvent eid pid now =>
    rcases registerForEvent_ok h with ⟨e, _, _, _, _, _, rfl⟩
    exact Nat.le_refl _
  | submitProof rid =>
    rcases submitProof_ok h with ⟨r, e, _, _, _, _, _, rfl⟩
    exact Nat.le_refl _
  | approveProof rid =>
    rcases approveProof_ok h with ⟨r, p, _, _, _, hconf⟩
    rcases confirmRegistration_ok hconf with ⟨r2, e2, _, _, _, _, _, rfl⟩
    exact Nat.le_succ _
  | rejectProof rid reason =>
    rcases rejectProof_ok h with ⟨r, p, _, _, _, rfl⟩
    exact Nat.le_refl _
  | confirmRegistration rid =>
    rcases confirmRegistration_ok h with ⟨r, e, _, _, _, _, _, rfl⟩
    exact Nat.le_succ _
  | verifyTicket tid now =>
    rcases verifyTicket_ok h with ⟨r, _, _, rfl⟩
    exact Nat.le_refl _
  | cancelRegistration rid =>
    rcases cancelRegistration_ok h with ⟨r, e, _, _, _, _, rfl⟩
    exact Nat.le_refl _

theorem applyOp_nextTicketId {op : Op} {s : Sys} :
    s.nextTicketId ≤ (applyOp op s).nextTicketId := by
  unfold applyOp
  cases hexec : exec op s with
  | ok s2 => exact exec_nextTicketId hexec
  | error e => exact Nat.le_refl _

theorem findReg_self {s : Sys} {r : Reg} (hwf : WF s) (hr : r ∈ s.regs) :
    findReg r.id s = some r := by
  cases hfind : findReg r.id s with
  | none => exact absurd rfl ((findBy_eq_none_iff.mp hfind) r hr)
  | some x =>
    obtain ⟨hx, hxid⟩ := findBy_mem hfind
    rw [key_inj_of_nodup hwf.regIdNodup hx hr hxid]

theorem holder_preserve_map {tid : Nat} {σ : RegState} {l : List Reg} {m : Reg → Reg}
    (hm : ∀ x : Reg, (m x).ticket = x.ticket ∧ (m x).state = x.state)
    (hex : ∃ r ∈ l, holdsTicket tid r = true)
    (hall : ∀ r ∈ l, holdsTicket tid r = true → r.state = σ) :
    (∃ r ∈ l.map m, holdsTicket tid r = true) ∧
      ∀ r ∈ l.map m, holdsTicket tid r = true → r.state = σ := by
  have hold : ∀ x : Reg, holdsTicket tid (m x) = holdsTicket tid x := by
    intro x
    simp only [holdsTicket, (hm x).1]
  constructor
  · rcases hex with ⟨r0, hr0, hh0⟩
    refine ⟨m r0, List.mem_map_of_mem m hr0, ?_⟩
    rw [hold r0]
    exact hh0
  · intro r hr hht
    rcases List.mem_map.mp hr with ⟨x, hx, rfl⟩
    rw [hold x] at hht
    rw [(hm x).2]
    exact hall x hx hht

theorem holder_updBy {tid : Nat} {σ : RegState} {rid : Nat} {s : Sys} {rT : Reg}
    (f : Reg → Reg) (hwf : WF s) (hfr : findReg rid s = some rT)
    (hT : rT.state = RegState.pending ∨ rT.state = RegState.confirmed)
    (hσ : σ = RegState.checkedIn ∨ σ = RegState.cancelled)
    (hfresh : holdsTicket tid (f rT) = true → holdsTicket tid rT = true)
    (hh : HolderState tid σ s) :
    (∃ r ∈ updBy Reg.id rid f s.regs, holdsTicket tid r = true) ∧
      ∀ r ∈ updBy Reg.id rid f s.regs, holdsTicket tid r = true → r.state = σ := by
  obtain ⟨hTmem, hTid⟩ := findReg_mem hfr
  have hTne : rT.state ≠ σ := by
    rcases hT with h1 | h1 <;> rcases hσ with h2 | h2 <;> rw [h1, h2] <;>
      intro hc <;> cases hc
  have hne : ∀ x ∈ s.regs, holdsTicket tid x = true → x.id ≠ rid := by
    intro x hx hht hxid
    have hxT : x = rT := key_inj_of_nodup hwf.regIdNodup hx hTmem (by rw [hxid, hTid])
    exact hTne (by rw [← hxT]; exact hh.2 x hx hht)
  constructor
  · rcases hh.1 with ⟨r0, hr0, hh0⟩
    refine ⟨if Reg.id r0 == rid then f r0 else r0, List.mem_map_of_mem _ hr0, ?_⟩
    rw [if_neg (by simp [hne r0 hr0 hh0])]
    exact hh0
  · intro r hr hht
    rcases mem_of_mem_updBy hr with ⟨x, hx, rfl⟩
    by_cases hk : x.id = rid
    · have hxT : x = rT := key_inj_of_nodup hwf.regIdNodup hx hTmem (by rw [hk, hTid])
      subst hxT
      rw [if_pos (by simp [hk])] at hht ⊢
      exact absurd (hh.2 x hx (hfresh hht)) hTne
    · rw [if_neg (by simp [hk])] at hht ⊢
      exact hh.2 x hx hht

theorem holder_confirmRegistration {tid : Nat} {σ : RegState} {rid : Nat} {s s2 : Sys}
    (hwf : WF s) (h : confirmRegistration rid s = .ok s2)
    (hσ : σ = RegState.checkedIn ∨ σ = RegState.cancelled)
    (htid : tid < s.nextTicketId) (hh : HolderState tid σ s) : HolderState tid σ s2 := by
  rcases confirmRegistration_ok h with ⟨r, e, hfr, hfe, hterm, hpend, hgate, rfl⟩
  refine holder_updBy _ hwf hfr (Or.inl hpend) hσ ?_ hh
  intro hht
  exact absurd (by simpa [holdsTicket] using hht) (Nat.ne_of_gt htid)

theorem holder_exec {tid : Nat} {σ : RegState} {op : Op} {s s2 : Sys}
    (hwf : WF s) (h : exec op s = .ok s2)
    (hσ : σ = RegState.checkedIn ∨ σ = RegState.cancelled)
    (htid : tid < s.nextTicketId) (hh : HolderState tid σ s) : HolderState tid σ s2 := by
  cases op with
  | createEvent c p oa ca =>
    rw [createEvent_ok h]
    exact hh
  | publishEvent eid =>
    rcases publishEvent_ok h with ⟨e, _, _, rfl⟩
    exact hh
  | closeEvent eid =>
    rcases closeEvent_ok h with ⟨e, _, _, rfl⟩
    exact hh
  | completeEvent eid =>
    rcases completeEvent_ok h with ⟨e, _, _, rfl⟩
    exact hh
  | cancelEvent eid =>
    rcases cancelEvent_ok h with ⟨e, hfe, hdp, rfl⟩
    constructor
    · rcases hh.1 with ⟨r0, hr0, hh0⟩
      have hop : regOpen r0 = false := by
        have hst := hh.2 r0 hr0 hh0
        rcases hσ with h2 | h2 <;> rw [h2] at hst <;> simp [regOpen, hst]
      refine ⟨_, List.mem_map_of_mem _ hr0, ?_⟩
      rw [if_neg (by simp [hop])]
      exact hh0
    · intro r hr hht
      rcases List.mem_map.mp hr with ⟨x, hx, rfl⟩
      by_cases hc : (x.eventId == eid && regOpen x) = true
      · rw [if_pos hc] at hht ⊢
        have hx2 : holdsTicket tid x = true := hht
        have hst := hh.2 x hx hx2
        rcases hσ with h2 | h2
        · exfalso
          have hop : regOpen x = false := by simp [regOpen, hst, h2]
          simp [hop] at hc
        · rw [h2]
      · rw [if_neg hc] at hht ⊢
        exact hh.2 x hx hht
  | registerForEvent eid pid now2 =>
    rcases registerForEvent_ok h with ⟨e, _, _, _, _, _, rfl⟩
    constructor
    · rcases hh.1 with ⟨r0, hr0, hh0⟩
      exact ⟨r0, List.mem_append_left _ hr0, hh0⟩
    · intro r hr hht
      rcases List.mem_append.mp hr with h1 | h1
      · exact hh.2 r h1 hht
      · simp only [List.mem_singleton] at h1
        subst h1
        cases hht
  | submitProof rid =>
    rcases submitProof_ok h with ⟨r, e, hfr, hfe, hreq, hpend, hcan, rfl⟩
    exact holder_preserve_map
      (fun x => by by_cases hk : x.id = rid <;> simp [hk]) hh.1 hh.2
  | approveProof rid =>
    rcases approveProof_ok h with ⟨r, p, hfr, hpp, hpend, hconf⟩
    have hwf2 : WF { s with
        regs := updBy Reg.id rid
          (fun r0 => { r0 with payProof := some ⟨.approved, none⟩ }) s.regs } := by
      refine WF_updProof hwf hfr ?_
      intro e he heq hpay hst
      rfl
    have hh2 : HolderState tid σ { s with
        regs := updBy Reg.id rid
          (fun r0 => { r0 with payProof := some ⟨.approved, none⟩ }) s.regs } :=
      holder_preserve_map
        (fun x => by by_cases hk : x.id = rid <;> simp [hk]) hh.1 hh.2
    exact holder_confirmRegistration hwf2 hconf hσ htid hh2
  | rejectProof rid reason =>
    rcases rejectProof_ok h with ⟨r, p, hfr, hpp, hpend, rfl⟩
    exact holder_preserve_map
      (fun x => by by_cases hk : x.id = rid <;> simp [hk]) hh.1 hh.2
  | confirmRegistration rid =>
    exact holder_confirmRegistration hwf h hσ htid hh
  | verifyTicket tid2 now2 =>
    rcases verifyTicket_ok h with ⟨r, hfr, hconf, rfl⟩
    have hrmem : r ∈ s.regs := List.mem_of_find?_eq_some hfr
    refine holder_updBy _ hwf (findReg_self hwf hrmem) (Or.inr hconf) hσ ?_ hh
    intro hht
    cases hrt : r.ticket with
    | none =>
      exfalso
      have hht2 : holdsTicket tid
          ({ r with state := RegState.checkedIn, ticket := markUsed now2 r.ticket } : Reg)
            = true := hht
      simp [holdsTicket, markUsed, hrt] at hht2
    | some t0 =>
      have hht2 : holdsTicket tid
          ({ r with state := RegState.checkedIn, ticket := markUsed now2 r.ticket } : Reg)
            = true := hht
      simp only [holdsTicket, markUsed, hrt] at hht2
      simp only [holdsTicket, hrt]
      exact hht2
  | cancelRegistration rid =>
    rcases cancelRegistration_ok h with ⟨r, e, hfr, hfe, hcomp, hopen, rfl⟩
    exact holder_updBy _ hwf hfr hopen hσ (fun hht => hht) hh

theorem holder_applyOp {tid : Nat} {σ : RegState} {op : Op} {s : Sys}
    (hwf : WF s) (hσ : σ = RegState.checkedIn ∨ σ = RegState.cancelled)
    (htid : tid < s.nextTicketId) (hh : HolderState tid σ s) :
    HolderState tid σ (applyOp op s) := by
  unfold applyOp
  cases hexec : exec op s with
  | ok s2 => exact holder_exec hwf hexec hσ htid hh
  | error e => exact hh

theorem holder_run {tid : Nat} {σ : RegState} {s : Sys} (ops : List Op)
    (hwf : WF s) (hσ : σ = RegState.checkedIn ∨ σ = RegState.cancelled)
    (htid : tid < s.nextTicketId) (hh : HolderState tid σ s) :
    HolderState tid σ (run s ops) := by
  induction ops generalizing s with
  | nil => exact hh
  | cons op ops ih =>
    exact ih (WF_applyOp hwf) (Nat.lt_of_lt_of_le htid applyOp_nextTicketId)
      (holder_applyOp hwf hσ htid hh)

theorem verify_of_holder_checkedIn {tid now : Nat} {s : Sys}
    (hh : HolderState tid RegState.checkedIn s) :
    verifyTicket tid now s = .error .TicketAlreadyUsed := by
  cases hfind : findByTicket tid s with
  | none =>
    exfalso
    rcases hh.1 with ⟨r0, hr0, hh0⟩
    exact (List.find?_eq_none.mp hfind) r0 hr0 hh0
  | some r =>
    have hmem : r ∈ s.regs := List.mem_of_find?_eq_some hfind
    have hholds : holdsTicket tid r = true := List.find?_some hfind
    have hst : r.state = RegState.checkedIn := hh.2 r hmem hholds
    simp only [verifyTicket, hfind, hst]

theorem verify_of_holder_cancelled {tid now : Nat} {s : Sys}
    (hh : HolderState tid RegState.cancelled s) :
    verifyTicket tid now s = .error .TicketInvalid := by
  cases hfind : findByTicket tid s with
  | none =>
    exfalso
    rcases hh.1 with ⟨r0, hr0, hh0⟩
    exact (List.find?_eq_none.mp hfind) r0 hr0 hh0
  | some r =>
    have hmem : r ∈ s.regs := List.mem_of_find?_eq_some hfind
    have hholds : holdsTicket tid r = true := List.find?_some hfind
    have hst : r.state = RegState.cancelled := hh.2 r hmem hholds
    simp only [verifyTicket, hfind, hst]

theorem holdsTicket_some {tid : Nat} {r : Reg} (h : holdsTicket tid r = true) :
    ∃ t, r.ticket = some t ∧ t.tid = tid := by
  unfold holdsTicket at h
  cases hrt : r.ticket with
  | none =>
    rw [hrt] at h
    cases h
  | some t0 =>
    rw [hrt] at h
    exact ⟨t0, rfl, by simpa using h⟩

theorem holderState_map_self {tid : Nat} {σ : RegState} {s : Sys} {r : Reg} (g : Reg → Reg)
    (hwf : WF s) (hr : r ∈ s.regs) (hholds : holdsTicket tid r = true)
    (hg1 : (g r).state = σ) (hg2 : holdsTicket tid (g r) = true)
    (hgt : ∀ x ∈ s.regs, holdsTicket tid (g x) = true → holdsTicket tid x = true) :
    (∃ x ∈ s.regs.map g, holdsTicket tid x = true) ∧
      ∀ x ∈ s.regs.map g, holdsTicket tid x = true → x.state = σ := by
  constructor
  · exact ⟨g r, List.mem_map_of_mem g hr, hg2⟩
  · intro x hx hht
    rcases List.mem_map.mp hx with ⟨z, hz, rfl⟩
    have hzh : holdsTicket tid z = true := hgt z hz hht
    rcases holdsTicket_some hzh with ⟨tz, hz2, hz3⟩
    rcases holdsTicket_some hholds with ⟨tr, hr2, hr3⟩
    have hzr : z = r := key_inj_of_nodup hwf.regIdNodup hz hr
      (hwf.tidUnique z hz r hr tz tr hz2 hr2 (by rw [hz3, hr3]))
    subst hzr
    exact hg1

theorem flipBit_ne (n k : Nat) : flipBit n k ≠ n := by
  unfold flipBit
  intro h
  have h2 : (n ^^^ 2 ^ k) ^^^ n = 0 := by rw [h, Nat.xor_self]
  rw [Nat.xor_comm n (2 ^ k), Nat.xor_assoc, Nat.xor_self, Nat.xor_zero] at h2
  exact absurd h2 (Nat.pos_iff_ne_zero.mp (Nat.pow_pos (show 0 < 2 by norm_num)))

/-- C10: every error reaching the top-level Express error handler yields a
response with status 500 and the fixed message `Something went wrong!`; the
body's `error` field carries the underlying error message if and only if
`NODE_ENV` equals `development`; and outside development mode any two
distinct internal errors produce identical response bodies, so no internal
error detail leaks to the caller. -/
theorem C10_error_handler (env msg : String) :
    (errorHandler env msg).status = 500 ∧
    (errorHandler env msg).message = "Something went wrong!" ∧
    ((errorHandler env msg).error = some msg ↔ env = "development") ∧
    (env ≠ "development" → ∀ msg2, errorHandler env msg = errorHandler env msg2) := by
  refine ⟨rfl, rfl, ⟨?_, ?_⟩, ?_⟩
  · intro h
    by_cases hd : env = "development"
    · exact hd
    · exfalso
      simp [errorHandler, hd] at h
  · intro h
    simp [errorHandler, h]
  · intro hne msg2
    simp [errorHandler, hne]

/-- C9: on a successful confirmation the confirm transition commits before
the notification is dispatched: a successful and a failed email delivery
yield exactly the same confirmed state; the email service throws its fixed
error on a failed send, and the confirmation flow logs that failure without
undoing the confirmation or failing the calling transition. -/
theorem C9_notification_nonfatal {rid : Nat} {s s2 : Sys} (mid : String)
    (hok : confirmRegistration rid s = .ok s2) :
    sendRegistrationEmail none = .error "Failed to send email" ∧
    confirmAndNotify rid (some mid) s = .ok (s2, ["Email sent: " ++ mid]) ∧
    confirmAndNotify rid none s =
      .ok (s2, ["Email sending error: " ++ "Failed to send email"]) := by
  refine ⟨rfl, ?_, ?_⟩
  · simp [confirmAndNotify, hok, sendRegistrationEmail]
  · simp [confirmAndNotify, hok, sendRegistrationEmail]

/-- C5: decoding the token produced by `issue` returns exactly the ticket
and event identifiers embedded at issuance, and corrupting any single bit of
any field of a valid token makes the integrity check fail, so decode reports
`MalformedToken`. -/
theorem C5_codec_roundtrip (secret tid eid : Nat) :
    decodeToken secret (issueToken secret tid eid) = .ok (tid, eid) ∧
    ∀ f k, decodeToken secret (corruptToken (issueToken secret tid eid) f k) =
      .error .MalformedToken := by
  constructor
  · simp [decodeToken, issueToken]
  · intro f k
    cases f with
    | fTid =>
      unfold decodeToken issueToken corruptToken
      rw [if_neg]
      intro h
      simp only at h
      exact flipBit_ne tid k (by omega)
    | fEid =>
      unfold decodeToken issueToken corruptToken
      rw [if_neg]
      intro h
      simp only at h
      exact flipBit_ne eid k (by omega)
    | fCheck =>
      unfold decodeToken issueToken corruptToken
      rw [if_neg]
      intro h
      simp only at h
      exact flipBit_ne (tid + eid + secret) k h

/-- C2: the capacity ledger reserve operation always succeeds when the
event's capacity is 0 (unlimited); with positive capacity it succeeds
exactly when the count is strictly below capacity, incrementing the count,
and fails with `CapacityExceeded` otherwise; `releaseSlot` decrements the
count and never takes it below zero; and a successful registration creates
the registration record and increments the event count in the same atomic
operation. -/
theorem C2_capacity_ledger {s : Sys} {eid pid now : Nat} {e : Event}
    (hfe : findEvent eid s = some e) :
    (e.capacity = 0 → reserveSlot e = .ok { e with count := e.count + 1 }) ∧
    (0 < e.capacity → ((∃ e2, reserveSlot e = .ok e2) ↔ e.count < e.capacity)) ∧
    (0 < e.capacity → ¬ e.count < e.capacity →
      reserveSlot e = .error .CapacityExceeded) ∧
    (∀ e2, reserveSlot e = .ok e2 → e2.count = e.count + 1) ∧
    (0 < e.count → (releaseSlot e).count + 1 = e.count) ∧
    (e.count = 0 → (releaseSlot e).count = 0) ∧
    (∀ s2, registerForEvent eid pid now s = .ok s2 →
      s2.regs = s.regs ++ [⟨s.nextRegId, eid, pid, .pending, none, none⟩] ∧
      findEvent eid s2 = some { e with count := e.count + 1 }) := by
  have heid := (findEvent_mem hfe).2
  refine ⟨?_, ?_, ?_, ?_, ?_, ?_, ?_⟩
  · intro h0
    unfold reserveSlot
    rw [if_pos h0]
  · intro hcap
    constructor
    · rintro ⟨e2, he2⟩
      rcases (reserveSlot_ok he2).2 with h0 | hlt
      · omega
      · exact hlt
    · intro hlt
      refine ⟨{ e with count := e.count + 1 }, ?_⟩
      unfold reserveSlot
      rw [if_neg (by omega), if_pos hlt]
  · intro hcap hnot
    unfold reserveSlot
    rw [if_neg (by omega), if_neg hnot]
  · intro e2 he2
    rw [(reserveSlot_ok he2).1]
  · intro h
    show e.count - 1 + 1 = e.count
    omega
  · intro h
    show e.count - 1 = 0
    omega
  · intro s2 hreg
    rcases registerForEvent_ok hreg with ⟨e2, hfe2, _, _, _, _, rfl⟩
    rw [hfe] at hfe2
    cases hfe2
    refine ⟨rfl, ?_⟩
    show findBy Event.id eid
      (updBy Event.id eid (fun _ => { e with count := e.count + 1 }) s.events)
        = some { e with count := e.count + 1 }
    have hupd : findBy Event.id eid
        (updBy Event.id eid (fun _ => { e with count := e.count + 1 }) s.events)
          = (findBy Event.id eid s.events).map
            (fun x => if Event.id x == eid then { e with count := e.count + 1 } else x) :=
      findBy_updBy _ (fun x hx => by simp [heid, hx])
    have hfe3 : findBy Event.id eid s.events = some e := hfe
    rw [hupd, hfe3]
    show some (if Event.id e == eid then { e with count := e.count + 1 } else e)
      = some { e with count := e.count + 1 }
    rw [if_pos (by simp [heid])]

/-- C1: in every reachable state — i.e. after any finite sequence of atomic
engine operations, which covers every interleaving of concurrent
reservation and confirmation attempts — an event with positive capacity `C`
has at most `C` registrations in confirmed or checked-in state (no
overbooking). -/
theorem C1_no_overbooking {s : Sys} (hs : Reachable s) {e : Event}
    (he : e ∈ s.events) (hcap : 0 < e.capacity) :
    s.regs.countP (confirmedFor e.id) ≤ e.capacity :=
  (WF_reachable hs).capSafe e he hcap

/-- C6: each event lifecycle transition is legal only from its adjacent
predecessor state — publish from draft, close from published, complete from
closed, cancel from draft or published — and attempted from any other state
it fails with `InvalidStateTransition` and leaves the state, in particular
the event record, unchanged. -/
theorem C6_lifecycle_adjacency {s : Sys} {eid : Nat} {e : Event}
    (hfe : findEvent eid s = some e) :
    ((∃ s2, publishEvent eid s = .ok s2) → e.state = .draft) ∧
    (e.state ≠ .draft →
      publishEvent eid s = .error .InvalidStateTransition ∧
      applyOp (.publishEvent eid) s = s) ∧
    ((∃ s2, closeEvent eid s = .ok s2) → e.state = .published) ∧
    (e.state ≠ .published →
      closeEvent eid s = .error .InvalidStateTransition ∧
      applyOp (.closeEvent eid) s = s) ∧
    ((∃ s2, completeEvent eid s = .ok s2) → e.state = .closed) ∧
    (e.state ≠ .closed →
      completeEvent eid s = .error .InvalidStateTransition ∧
      applyOp (.completeEvent eid) s = s) ∧
    ((∃ s2, cancelEvent eid s = .ok s2) → e.state = .draft ∨ e.state = .published) ∧
    (¬(e.state = .draft ∨ e.state = .published) →
      cancelEvent eid s = .error .InvalidStateTransition ∧
      applyOp (.cancelEvent eid) s = s) := by
  refine ⟨?_, ?_, ?_, ?_, ?_, ?_, ?_, ?_⟩
  · rintro ⟨s2, h⟩
    rcases publishEvent_ok h with ⟨e2, hfe2, hst, -⟩
    rw [hfe] at hfe2
    cases hfe2
    exact hst
  · intro hne
    have herr : publishEvent eid s = .error .InvalidStateTransition := by
      simp only [publishEvent, hfe]
      rw [if_neg hne]
    refine ⟨herr, ?_⟩
    have herr2 : exec (.publishEvent eid) s = .error .InvalidStateTransition := herr
    unfold applyOp
    rw [herr2]
  · rintro ⟨s2, h⟩
    rcases closeEvent_ok h with ⟨e2, hfe2, hst, -⟩
    rw [hfe] at hfe2
    cases hfe2
    exact hst
  · intro hne
    have herr : closeEvent eid s = .error .InvalidStateTransition := by
      simp only [closeEvent, hfe]
      rw [if_neg hne]
    refine ⟨herr, ?_⟩
    have herr2 : exec (.closeEvent eid) s = .error .InvalidStateTransition := herr
    unfold applyOp
    rw [herr2]
  · rintro ⟨s2, h⟩
    rcases completeEvent_ok h with ⟨e2, hfe2, hst, -⟩
    rw [hfe] at hfe2
    cases hfe2
    exact hst
  · intro hne
    have herr : completeEvent eid s = .error .InvalidStateTransition := by
      simp only [completeEvent, hfe]
      rw [if_neg hne]
    refine ⟨herr, ?_⟩
    have herr2 : exec (.completeEvent eid) s = .error .InvalidStateTransition := herr
    unfold applyOp
    rw [herr2]
  · rintro ⟨s2, h⟩
    rcases cancelEvent_ok h with ⟨e2, hfe2, hst, -⟩
    rw [hfe] at hfe2
    cases hfe2
    exact hst
  · intro hne
    have herr : cancelEvent eid s = .error .InvalidStateTransition := by
      simp only [cancelEvent, hfe]
      rw [if_neg hne]
    refine ⟨herr, ?_⟩
    have herr2 : exec (.cancelEvent eid) s = .error .InvalidStateTransition := herr
    unfold applyOp
    rw [herr2]

/-- C4: in every reachable state a registration of a payment-required event
is confirmed or checked-in only with an approved most-recent proof; a
confirm attempted on a pending registration whose proof is pending or
rejected fails with `PaymentNotApproved`; and a registration of an event
that does not require payment bypasses the gate — once its slot is reserved
it is eligible for confirmation with no proof at all. -/
theorem C4_payment_gate {s : Sys} (hs : Reachable s) :
    (∀ r ∈ s.regs, ∀ e ∈ s.events, e.id = r.eventId → e.requiresPayment = true →
      (r.state = RegState.confirmed ∨ r.state = RegState.checkedIn) →
      proofApproved r = true) ∧
    (∀ rid r e, findReg rid s = some r → findEvent r.eventId s = some e →
      e.requiresPayment = true → r.state = RegState.pending →
      (∀ p, r.payProof = some p →
        p.state = ProofState.pending ∨ p.state = ProofState.rejected) →
      ¬(e.state = .completed ∨ e.state = .cancelled) →
      confirmRegistration rid s = .error .PaymentNotApproved) ∧
    (∀ rid r e, findReg rid s = some r → findEvent r.eventId s = some e →
      e.requiresPayment = false → r.state = RegState.pending →
      ¬(e.state = .completed ∨ e.state = .cancelled) →
      ∃ s2, confirmRegistration rid s = .ok s2) := by
  refine ⟨(WF_reachable hs).payGate, ?_, ?_⟩
  · intro rid r e hfr hfe hpay hpend hproof hterm
    have hfalse : proofApproved r = false := by
      cases hpp : r.payProof with
      | none => simp [proofApproved, hpp]
      | some p =>
        rcases hproof p hpp with h1 | h1 <;> simp [proofApproved, hpp, h1]
    simp only [confirmRegistration, hfr, hfe]
    rw [if_neg hterm, if_neg (fun hc => hc hpend), if_pos ⟨hpay, hfalse⟩]
  · intro rid r e hfr hfe hpay hpend hterm
    refine ⟨{ s with
      regs := updBy Reg.id rid
        (fun r0 => { r0 with
          state := .confirmed,
          ticket := some ⟨s.nextTicketId, false, none⟩ }) s.regs,
      nextTicketId := s.nextTicketId + 1 }, ?_⟩
    simp only [confirmRegistration, hfr, hfe]
    rw [if_neg hterm, if_neg (fun hc => hc hpend),
      if_neg (fun hc => by rw [hpay] at hc; cases hc.1)]

theorem findBy_map {key : α → Nat} {k : Nat} (g : α → α) {l : List α}
    (hg : ∀ x, key (g x) = key x) :
    findBy key k (l.map g) = (findBy key k l).map g := by
  unfold findBy
  rw [List.find?_map]
  have hp : ((fun x => key x == k) ∘ g) = fun x => key x == k := by
    funext x
    simp [Function.comp, hg x]
  rw [hp]

/-- C3: check-in — the verification service's verify on a scanned ticket —
succeeds only when the holding registration is confirmed; on success the
registration becomes checked-in with the ticket's used flag set and the
check-in timestamp recorded; and afterwards, following any further sequence
of operations, another check-in attempt on the same ticket fails with
`TicketAlreadyUsed` — a ticket transitions to used at most once and is never
reusable. -/
theorem C3_ticket_single_use {s s2 : Sys} {tid now : Nat} {r : Reg}
    (hs : Reachable s) (hfind : findByTicket tid s = some r)
    (hok : verifyTicket tid now s = .ok s2) :
    r.state = RegState.confirmed ∧
    findReg r.id s2 =
      some { r with state := RegState.checkedIn, ticket := markUsed now r.ticket } ∧
    (∀ t, r.ticket = some t →
      markUsed now r.ticket = some ⟨t.tid, true, some now⟩) ∧
    (∀ ops now2, verifyTicket tid now2 (run s2 ops) = .error .TicketAlreadyUsed) := by
  have hwf := WF_reachable hs
  rcases verifyTicket_ok hok with ⟨r2, hfind2, hconf2, hs2⟩
  rw [hfind] at hfind2
  cases hfind2
  subst hs2
  have hrmem : r ∈ s.regs := List.mem_of_find?_eq_some hfind
  have hholds : holdsTicket tid r = true := List.find?_some hfind
  rcases holdsTicket_some hholds with ⟨tr, htr, htrtid⟩
  refine ⟨hconf2, ?_, ?_, ?_⟩
  · show findBy Reg.id r.id (updBy Reg.id r.id
      (fun r0 => { r0 with state := RegState.checkedIn, ticket := markUsed now r0.ticket })
      s.regs) = some { r with state := RegState.checkedIn, ticket := markUsed now r.ticket }
    have hupd : findBy Reg.id r.id
        (updBy Reg.id r.id
          (fun r0 => { r0 with state := RegState.checkedIn, ticket := markUsed now r0.ticket })
          s.regs)
          = (findBy Reg.id r.id s.regs).map
            (fun x => if Reg.id x == r.id then
              { x with state := RegState.checkedIn, ticket := markUsed now x.ticket } else x) :=
      findBy_updBy _ (fun x hx => rfl)
    have hfr : findBy Reg.id r.id s.regs = some r := findReg_self hwf hrmem
    rw [hupd, hfr]
    show some (if Reg.id r == r.id then
        { r with state := RegState.checkedIn, ticket := markUsed now r.ticket } else r)
      = some { r with state := RegState.checkedIn, ticket := markUsed now r.ticket }
    rw [if_pos (by simp)]
  · intro t ht
    rw [ht]
    simp [markUsed]
  · intro ops now2
    have hwf2 := WF_verifyTicket hwf hok
    have htid2 : tid < s.nextTicketId := by
      rw [← htrtid]
      exact hwf.tidLt r hrmem tr htr
    have hg1 : (if Reg.id r == r.id then
        { r with state := RegState.checkedIn, ticket := markUsed now r.ticket } else r).state
          = RegState.checkedIn := by
      simp
    have hg2 : holdsTicket tid (if Reg.id r == r.id then
        { r with state := RegState.checkedIn, ticket := markUsed now r.ticket } else r)
          = true := by
      simp [holdsTicket, markUsed, htr, htrtid]
    have hgt : ∀ x ∈ s.regs, holdsTicket tid (if Reg.id x == r.id then
        { x with state := RegState.checkedIn, ticket := markUsed now x.ticket } else x)
          = true → holdsTicket tid x = true := by
      intro x hx hht
      by_cases hk : x.id = r.id
      · rw [if_pos (by simp [hk])] at hht
        cases hxt : x.ticket with
        | none =>
          exfalso
          have hht2 : holdsTicket tid
              ({ x with state := RegState.checkedIn, ticket := markUsed now x.ticket } : Reg)
                = true := hht
          simp [holdsTicket, markUsed, hxt] at hht2
        | some t0 =>
          have hht2 : holdsTicket tid
              ({ x with state := RegState.checkedIn, ticket := markUsed now x.ticket } : Reg)
                = true := hht
          simp only [holdsTicket, markUsed, hxt] at hht2
          simp only [holdsTicket, hxt]
          exact hht2
      · rw [if_neg (by simp [hk])] at hht
        exact hht
    have hh2 := holderState_map_self
      (fun x : Reg => if Reg.id x == r.id then
        { x with state := RegState.checkedIn, ticket := markUsed now x.ticket } else x)
      hwf hrmem hholds hg1 hg2 hgt
    have hrun := holder_run ops hwf2 (Or.inl rfl) htid2 hh2
    exact verify_of_holder_checkedIn hrun

/-- C7: cancelling an event in draft or published state transitions every
open (pending or confirmed) registration of the event to cancelled, resets
the event's capacity count to 0, and invalidates every outstanding ticket of
the event: after the cancellation, following any further sequence of
operations, verifying such a ticket fails with `TicketInvalid`. -/
theorem C7_cancel_cascade {s s2 : Sys} {eid : Nat} {e : Event}
    (hs : Reachable s) (hfe : findEvent eid s = some e)
    (hok : cancelEvent eid s = .ok s2) :
    (∀ r ∈ s.regs, r.eventId = eid → (r.state = .pending ∨ r.state = .confirmed) →
      findReg r.id s2 = some { r with state := RegState.cancelled }) ∧
    findEvent eid s2 = some { e with state := .cancelled, count := 0 } ∧
    (∀ r ∈ s.regs, r.eventId = eid → r.state = .confirmed →
      ∀ t, r.ticket = some t → ∀ ops now,
        verifyTicket t.tid now (run s2 ops) = .error .TicketInvalid) := by
  have hwf := WF_reachable hs
  rcases cancelEvent_ok hok with ⟨e2, hfe2, hdp2, hs2⟩
  rw [hfe] at hfe2
  cases hfe2
  subst hs2
  have heid := (findEvent_mem hfe).2
  have hgid : ∀ x : Reg, Reg.id ((fun r0 : Reg =>
      if r0.eventId == eid && regOpen r0 then { r0 with state := RegState.cancelled } else r0) x)
        = Reg.id x := by
    intro x
    by_cases hc : (x.eventId == eid && regOpen x) = true
    · simp [hc]
    · simp [hc]
  refine ⟨?_, ?_, ?_⟩
  · intro r hr hrid hropen
    have hfr : findBy Reg.id r.id s.regs = some r := findReg_self hwf hr
    have hcond : (r.eventId == eid && regOpen r) = true := by
      rcases hropen with h1 | h1 <;> simp [regOpen, hrid, h1]
    show findBy Reg.id r.id (s.regs.map (fun r0 =>
      if r0.eventId == eid && regOpen r0 then { r0 with state := RegState.cancelled } else r0))
        = some { r with state := RegState.cancelled }
    have hupd : findBy Reg.id r.id (s.regs.map (fun r0 =>
        if r0.eventId == eid && regOpen r0 then { r0 with state := RegState.cancelled } else r0))
          = (findBy Reg.id r.id s.regs).map (fun r0 =>
            if r0.eventId == eid && regOpen r0 then
              { r0 with state := RegState.cancelled } else r0) :=
      findBy_map _ hgid
    rw [hupd, hfr]
    show some (if r.eventId == eid && regOpen r then
        { r with state := RegState.cancelled } else r)
      = some { r with state := RegState.cancelled }
    rw [if_pos hcond]
  · show findBy Event.id eid (updBy Event.id eid
      (fun e0 => { e0 with state := EventState.cancelled, count := 0 }) s.events)
        = some { e with state := .cancelled, count := 0 }
    have hupd : findBy Event.id eid
        (updBy Event.id eid
          (fun e0 => { e0 with state := EventState.cancelled, count := 0 }) s.events)
          = (findBy Event.id eid s.events).map
            (fun x => if Event.id x == eid then
              { x with state := EventState.cancelled, count := 0 } else x) :=
      findBy_updBy _ (fun x hx => rfl)
    have hfe3 : findBy Event.id eid s.events = some e := hfe
    rw [hupd, hfe3]
    show some (if Event.id e == eid then
        { e with state := EventState.cancelled, count := 0 } else e)
      = some { e with state := EventState.cancelled, count := 0 }
    rw [if_pos (by simp [heid])]
  · intro r hr hrid hrconf t ht ops now
    have hholds : holdsTicket t.tid r = true := by simp [holdsTicket, ht]
    have hcond : (r.eventId == eid && regOpen r) = true := by
      simp [regOpen, hrid, hrconf]
    have hwf2 := WF_cancelEvent hwf hok
    have htid2 : t.tid < s.nextTicketId := hwf.tidLt r hr t ht
    have hg1 : (if r.eventId == eid && regOpen r then
        { r with state := RegState.cancelled } else r).state = RegState.cancelled := by
      rw [if_pos hcond]
    have hg2 : holdsTicket t.tid (if r.eventId == eid && regOpen r then
        { r with state := RegState.cancelled } else r) = true := by
      rw [if_pos hcond]
      simp [holdsTicket, ht]
    have hgt : ∀ x ∈ s.regs, holdsTicket t.tid
        (if x.eventId == eid && regOpen x then { x with state := RegState.cancelled } else x)
          = true → holdsTicket t.tid x = true := by
      intro x hx hht
      by_cases hc : (x.eventId == eid && regOpen x) = true
      · rw [if_pos hc] at hht
        exact hht
      · rw [if_neg hc] at hht
        exact hht
    have hh2 := holderState_map_self
      (fun r0 : Reg => if r0.eventId == eid && regOpen r0 then
        { r0 with state := RegState.cancelled } else r0)
      hwf hr hholds hg1 hg2 hgt
    have hrun := holder_run ops hwf2 (Or.inr rfl) htid2 hh2
    exact verify_of_holder_cancelled hrun

/-- C8: cancelling a registration is legal only from pending or confirmed;
on success the registration is cancelled, exactly one capacity slot of its
event is released (the ledger count drops by exactly one), and any issued
ticket is invalidated — verifying it immediately fails with
`TicketInvalid`; once the owning event is completed, the cancellation fails
with `InvalidStateTransition` and the state, in particular every
registration record, is unchanged. -/
theorem C8_cancel_releases_slot {s : Sys} {rid : Nat} {r : Reg} {e : Event}
    (hs : Reachable s) (hfr : findReg rid s = some r)
    (hfe : findEvent r.eventId s = some e) :
    (∀ s2, cancelRegistration rid s = .ok s2 →
      (r.state = .pending ∨ r.state = .confirmed) ∧
      findReg rid s2 = some { r with state := RegState.cancelled } ∧
      findEvent r.eventId s2 = some (releaseSlot e) ∧
      e.count = (releaseSlot e).count + 1 ∧
      (∀ t, r.ticket = some t → ∀ now,
        verifyTicket t.tid now s2 = .error .TicketInvalid)) ∧
    (e.state = .completed →
      cancelRegistration rid s = .error .InvalidStateTransition ∧
      applyOp (.cancelRegistration rid) s = s) := by
  have hwf := WF_reachable hs
  obtain ⟨hrmem, hrid⟩ := findReg_mem hfr
  obtain ⟨hemem, heid⟩ := findEvent_mem hfe
  constructor
  · intro s2 hok
    rcases cancelRegistration_ok hok with ⟨r2, e2, hfr2, hfe2, hcomp2, hopen2, hs2⟩
    rw [hfr] at hfr2
    cases hfr2
    rw [hfe] at hfe2
    cases hfe2
    subst hs2
    have hropen : regOpen r = true := by
      rcases hopen2 with h1 | h1 <;> simp [regOpen, h1]
    have helive : e.state ≠ EventState.cancelled :=
      hwf.openLive r hrmem e hemem heid hropen
    have hactive : activeFor e.id r = true := by
      rcases hopen2 with h1 | h1 <;> simp [activeFor, regActive, heid, h1]
    have hcnt : 0 < List.countP (activeFor e.id) s.regs :=
      List.countP_pos_iff.mpr ⟨r, hrmem, hactive⟩
    have hc := hwf.countEq e hemem helive
    refine ⟨hopen2, ?_, ?_, ?_, ?_⟩
    · show findBy Reg.id rid (updBy Reg.id rid
        (fun r0 => { r0 with state := RegState.cancelled }) s.regs)
          = some { r with state := RegState.cancelled }
      have hupd : findBy Reg.id rid
          (updBy Reg.id rid (fun r0 => { r0 with state := RegState.cancelled }) s.regs)
            = (findBy Reg.id rid s.regs).map
              (fun x => if Reg.id x == rid then { x with state := RegState.cancelled } else x) :=
        findBy_updBy _ (fun x hx => rfl)
      have hfr3 : findBy Reg.id rid s.regs = some r := hfr
      rw [hupd, hfr3]
      show some (if Reg.id r == rid then { r with state := RegState.cancelled } else r)
        = some { r with state := RegState.cancelled }
      rw [if_pos (by simp [hrid])]
    · show findBy Event.id r.eventId (updBy Event.id r.eventId releaseSlot s.events)
        = some (releaseSlot e)
      have hupd : findBy Event.id r.eventId
          (updBy Event.id r.eventId releaseSlot s.events)
            = (findBy Event.id r.eventId s.events).map
              (fun x => if Event.id x == r.eventId then releaseSlot x else x) :=
        findBy_updBy _ (fun x hx => rfl)
      have hfe3 : findBy Event.id r.eventId s.events = some e := hfe
      rw [hupd, hfe3]
      show some (if Event.id e == r.eventId then releaseSlot e else e) = some (releaseSlot e)
      rw [if_pos (by simp [heid])]
    · show e.count = e.count - 1 + 1
      omega
    · intro t ht now
      have hholds : holdsTicket t.tid r = true := by simp [holdsTicket, ht]
      have hg1 : (if Reg.id r == rid then
          { r with state := RegState.cancelled } else r).state = RegState.cancelled := by
        simp [hrid]
      have hg2 : holdsTicket t.tid (if Reg.id r == rid then
          { r with state := RegState.cancelled } else r) = true := by
        simp [hrid, holdsTicket, ht]
      have hgt : ∀ x ∈ s.regs, holdsTicket t.tid
          (if Reg.id x == rid then { x with state := RegState.cancelled } else x)
            = true → holdsTicket t.tid x = true := by
        intro x hx hht
        by_cases hk : x.id = rid
        · rw [if_pos (by simp [hk])] at hht
          exact hht
        · rw [if_neg (by simp [hk])] at hht
          exact hht
      have hh2 := holderState_map_self
        (fun x : Reg => if Reg.id x == rid then { x with state := RegState.cancelled } else x)
        hwf hrmem hholds hg1 hg2 hgt
      exact verify_of_holder_cancelled hh2
  · intro hcompl
    have herr : cancelRegistration rid s = .error .InvalidStateTransition := by
      simp only [cancelRegistration, hfr, hfe]
      rw [if_pos hcompl]
    refine ⟨herr, ?_⟩
    have herr2 : exec (.cancelRegistration rid) s = .error .InvalidStateTransition := herr
    unfold applyOp
    rw [herr2]

/-- Concrete instance of C1 on the two-slot scenario. -/
theorem C1_no_overbooking_witness :
    Reachable (run sys0 opsA) ∧
    (⟨0, 2, false, 0, 10, .published, 2⟩ : Event) ∈ (run sys0 opsA).events ∧
    0 < (2 : Nat) ∧
    (run sys0 opsA).regs.countP (confirmedFor 0) ≤ 2 :=
  ⟨⟨opsA, rfl⟩, by decide, by decide,
   @C1_no_overbooking (run sys0 opsA) ⟨opsA, rfl⟩
     ⟨0, 2, false, 0, 10, .published, 2⟩ (by decide) (by decide)⟩

/-- Concrete instance of C2 on a one-slot-left event. -/
theorem C2_capacity_ledger_witness :
    findEvent 0 sC2 = some ⟨0, 2, false, 0, 10, .published, 1⟩ ∧
    (∃ e2, reserveSlot ⟨0, 2, false, 0, 10, .published, 1⟩ = .ok e2) ∧
    (releaseSlot (⟨0, 2, false, 0, 10, .published, 1⟩ : Event)).count + 1 = 1 ∧
    (run sC2 [Op.registerForEvent 0 9 3]).regs
      = sC2.regs ++ [⟨1, 0, 9, .pending, none, none⟩] :=
  ⟨rfl,
   ((@C2_capacity_ledger sC2 0 9 3 ⟨0, 2, false, 0, 10, .published, 1⟩ rfl).2.1
     (by decide)).mpr (by decide),
   (@C2_capacity_ledger sC2 0 9 3 ⟨0, 2, false, 0, 10, .published, 1⟩ rfl).2.2.2.2.1
     (by decide),
   ((@C2_capacity_ledger sC2 0 9 3 ⟨0, 2, false, 0, 10, .published, 1⟩ rfl).2.2.2.2.2.2
     (run sC2 [Op.registerForEvent 0 9 3]) rfl).1⟩

/-- Concrete instance of C3: a checked-in ticket is rejected on rescan. -/
theorem C3_ticket_single_use_witness :
    Reachable (run sys0 opsA) ∧
    findByTicket 0 (run sys0 opsA)
      = some ⟨0, 0, 7, .confirmed, none, some ⟨0, false, none⟩⟩ ∧
    verifyTicket 0 5 (run sys0 opsA) = .ok (run sys0 (opsA ++ [Op.verifyTicket 0 5])) ∧
    verifyTicket 0 6 (run (run sys0 (opsA ++ [Op.verifyTicket 0 5])) [])
      = .error .TicketAlreadyUsed :=
  ⟨⟨opsA, rfl⟩, rfl, rfl,
   (@C3_ticket_single_use (run sys0 opsA) (run sys0 (opsA ++ [Op.verifyTicket 0 5])) 0 5
     ⟨0, 0, 7, .confirmed, none, some ⟨0, false, none⟩⟩ ⟨opsA, rfl⟩ rfl rfl).2.2.2 [] 6⟩

/-- Concrete instance of C4: a pending proof blocks confirm, a free event
bypasses the gate. -/
theorem C4_payment_gate_witness :
    Reachable (run sys0 opsP) ∧
    confirmRegistration 0 (run sys0 opsP) = .error .PaymentNotApproved ∧
    (∃ s2, confirmRegistration 1 (run sys0 opsP) = .ok s2) :=
  ⟨⟨opsP, rfl⟩,
   (C4_payment_gate ⟨opsP, rfl⟩).2.1 0 ⟨0, 0, 7, .pending, some ⟨.pending, none⟩, none⟩
     ⟨0, 2, true, 0, 10, .published, 1⟩ rfl rfl rfl rfl
     (fun p hp => by cases hp; exact Or.inl rfl) (by decide),
   (C4_payment_gate ⟨opsP, rfl⟩).2.2 1 ⟨1, 1, 8, .pending, none, none⟩
     ⟨1, 3, false, 0, 10, .published, 1⟩ rfl rfl rfl rfl (by decide)⟩

/-- Concrete instance of C6: publish and complete rejected on a published
event, leaving it unchanged. -/
theorem C6_lifecycle_adjacency_witness :
    findEvent 0 (run sys0 opsE) = some ⟨0, 2, false, 0, 10, .published, 0⟩ ∧
    publishEvent 0 (run sys0 opsE) = .error .InvalidStateTransition ∧
    applyOp (.publishEvent 0) (run sys0 opsE) = run sys0 opsE ∧
    completeEvent 0 (run sys0 opsE) = .error .InvalidStateTransition :=
  ⟨rfl,
   ((@C6_lifecycle_adjacency (run sys0 opsE) 0
     ⟨0, 2, false, 0, 10, .published, 0⟩ rfl).2.1 (by decide)).1,
   ((@C6_lifecycle_adjacency (run sys0 opsE) 0
     ⟨0, 2, false, 0, 10, .published, 0⟩ rfl).2.1 (by decide)).2,
   ((@C6_lifecycle_adjacency (run sys0 opsE) 0
     ⟨0, 2, false, 0, 10, .published, 0⟩ rfl).2.2.2.2.2.1 (by decide)).1⟩

/-- Concrete instance of C7: cancelling a published event with three
registrations resets its count and kills its issued ticket. -/
theorem C7_cancel_cascade_witness :
    Reachable (run sys0 opsC) ∧
    findEvent 0 (run sys0 opsC) = some ⟨0, 3, false, 0, 10, .published, 3⟩ ∧
    cancelEvent 0 (run sys0 opsC) = .ok (run sys0 (opsC ++ [Op.cancelEvent 0])) ∧
    findEvent 0 (run sys0 (opsC ++ [Op.cancelEvent 0]))
      = some ⟨0, 3, false, 0, 10, .cancelled, 0⟩ ∧
    verifyTicket 0 9 (run (run sys0 (opsC ++ [Op.cancelEvent 0])) [])
      = .error .TicketInvalid :=
  ⟨⟨opsC, rfl⟩, rfl, rfl,
   (@C7_cancel_cascade (run sys0 opsC) (run sys0 (opsC ++ [Op.cancelEvent 0])) 0
     ⟨0, 3, false, 0, 10, .published, 3⟩ ⟨opsC, rfl⟩ rfl rfl).2.1,
   (@C7_cancel_cascade (run sys0 opsC) (run sys0 (opsC ++ [Op.cancelEvent 0])) 0
     ⟨0, 3, false, 0, 10, .published, 3⟩ ⟨opsC, rfl⟩ rfl rfl).2.2
     ⟨0, 0, 7, .confirmed, none, some ⟨0, false, none⟩⟩ (by decide) rfl rfl
     ⟨0, false, none⟩ rfl [] 9⟩

/-- Concrete instance of C8: cancelling a confirmed registration frees one
slot and kills its ticket; cancellation under a completed event is
rejected. -/
theorem C8_cancel_releases_slot_witness :
    Reachable (run sys0 opsA) ∧
    findReg 0 (run sys0 opsA) = some ⟨0, 0, 7, .confirmed, none, some ⟨0, false, none⟩⟩ ∧
    findEvent 0 (run sys0 opsA) = some ⟨0, 2, false, 0, 10, .published, 2⟩ ∧
    (2 : Nat) = (releaseSlot (⟨0, 2, false, 0, 10, .published, 2⟩ : Event)).count + 1 ∧
    verifyTicket 0 5 (run sys0 (opsA ++ [Op.cancelRegistration 0])) = .error .TicketInvalid ∧
    Reachable (run sys0 opsD) ∧
    cancelRegistration 0 (run sys0 opsD) = .error .InvalidStateTransition :=
  ⟨⟨opsA, rfl⟩, rfl, rfl,
   ((@C8_cancel_releases_slot (run sys0 opsA) 0
     ⟨0, 0, 7, .confirmed, none, some ⟨0, false, none⟩⟩
     ⟨0, 2, false, 0, 10, .published, 2⟩ ⟨opsA, rfl⟩ rfl rfl).1
     (run sys0 (opsA ++ [Op.cancelRegistration 0])) rfl).2.2.2.1,
   ((@C8_cancel_releases_slot (run sys0 opsA) 0
     ⟨0, 0, 7, .confirmed, none, some ⟨0, false, none⟩⟩
     ⟨0, 2, false, 0, 10, .published, 2⟩ ⟨opsA, rfl⟩ rfl rfl).1
     (run sys0 (opsA ++ [Op.cancelRegistration 0])) rfl).2.2.2.2 ⟨0, false, none⟩ rfl 5,
   ⟨opsD, rfl⟩,
   ((@C8_cancel_releases_slot (run sys0 opsD) 0 ⟨0, 0, 7, .pending, none, none⟩
     ⟨0, 2, false, 0, 10, .completed, 1⟩ ⟨opsD, rfl⟩ rfl rfl).2 rfl).1⟩

/-- Concrete instance of C9: a failed email send is logged and leaves the
committed confirmation untouched. -/
theorem C9_notification_nonfatal_witness :
    confirmRegistration 0 (run sys0 opsB)
      = .ok (run sys0 (opsB ++ [Op.confirmRegistration 0])) ∧
    confirmAndNotify 0 none (run sys0 opsB)
      = .ok (run sys0 (opsB ++ [Op.confirmRegistration 0]),
          ["Email sending error: " ++ "Failed to send email"]) :=
  ⟨rfl,
   (@C9_notification_nonfatal 0 (run sys0 opsB)
     (run sys0 (opsB ++ [Op.confirmRegistration 0])) "m1" rfl).2.2⟩

/-- Concrete instance of C10: production mode hides the error detail,
development mode shows it. -/
theorem C10_error_handler_witness :
    ("production" : String) ≠ "development" ∧
    errorHandler "production" "boom" = errorHandler "production" "other" ∧
    (errorHandler "development" "boom").error = some "boom" :=
  ⟨by decide,
   (C10_error_handler "production" "boom").2.2.2 (by decide) "other",
   ((C10_error_handler "development" "boom").2.2.1).mpr rfl⟩
